import Mathlib

/-!
A verification development for the OCR-RenameStudio matcher and rename engine
(`src/main.py`, class `OCRImageMatcher`).

The Python state is embedded shallowly:

* Python `dict`s (insertion-ordered, unique keys) become association lists
  `Dict β = List (String × β)` with Python-faithful operations: lookup of the
  first matching key, in-place replacement on assignment to an existing key,
  append on assignment to a fresh key, and removal on `pop`.
* File paths are plain strings; `os.path` / `pathlib` helpers
  (`basename`, `dirname`, `join`, `Path(...).stem`, `Path(...).suffix`) are
  translated for POSIX-style paths below.
* The filesystem is the list of currently existing paths; `os.rename`
  removes the source and adds the destination.  I/O failure of `os.rename`
  (the only operation the source wraps in `try`/`except`) is modelled by a
  caller-supplied oracle `err : String → String → Bool`.
* The time-derived random token `str(int(_time() * 1000))[-6:]` is modelled
  by an oracle `tok : Nat → String` indexed by the number of draws so far.
* The similarity scorer (`fuzz.ratio(...) / 100.0` or
  `difflib.SequenceMatcher(None, a, b).ratio()`, both external libraries)
  is a parameter `score : String → String → ℚ`.
* GUI-only effects (cards, labels, logging, re-sorting of the display
  order in `update_a_table` / `update_b_table`, message boxes) are omitted;
  the display lists `group_a_images` / `group_b_images` are carried as
  explicit state so every iteration order of the source is represented.
-/

/-- Python `dict` with string keys, as an insertion-ordered association list. -/
abbrev Dict (β : Type) : Type := List (String × β)

/-- `d.get(k)` / `d.get(k, default)` via `Option`: first entry with key `k`. -/
def dget {β : Type} (d : Dict β) (k : String) : Option β :=
  match d with
  | [] => none
  | (k', v) :: rest => if k' = k then some v else dget rest k

/-- `d[k] = v`: replace in place if `k` is already a key, else append. -/
def dset {β : Type} (d : Dict β) (k : String) (v : β) : Dict β :=
  match d with
  | [] => [(k, v)]
  | (k', v') :: rest => if k' = k then (k, v) :: rest else (k', v') :: dset rest k v

/-- `d.pop(k, None)`: drop the entry with key `k` (if any). -/
def dpop {β : Type} (d : Dict β) (k : String) : Dict β :=
  match d with
  | [] => []
  | (k', v') :: rest => if k' = k then rest else (k', v') :: dpop rest k

/-- The keys of a dict, in order. -/
def dkeys {β : Type} (d : Dict β) : List String := d.map (·.1)

/-- `if old in d: d[new] = d.pop(old)` — the rekeying idiom used on rename. -/
def drekey {β : Type} (d : Dict β) (old new : String) : Dict β :=
  match dget d old with
  | none => d
  | some v => dset (dpop d old) new v

/-- `lst[lst.index(old)] = new` guarded by `if old in lst`: replace the first
occurrence of `old` (the source lists are kept duplicate-free). -/
def listReplace (l : List String) (old new : String) : List String :=
  match l with
  | [] => []
  | x :: rest => if x = old then new :: rest else x :: listReplace rest old new

/-- Index of the last occurrence of `c`, if any. -/
def lastIdxOf (cs : List Char) (c : Char) : Option Nat :=
  match cs with
  | [] => none
  | x :: rest =>
      match lastIdxOf rest c with
      | some i => some (i + 1)
      | none => if x = c then some 0 else none

/-- The whitespace set of Python's `str.strip()`. -/
def isPySpace (c : Char) : Bool :=
  c = ' ' ∨ c = '\t' ∨ c = '\n' ∨ c = '\r' ∨ c = '\x0b' ∨ c = '\x0c'

/-- Python `s.strip()`. -/
def pyStrip (s : String) : String :=
  ⟨((s.data.dropWhile isPySpace).reverse.dropWhile isPySpace).reverse⟩

/-- `os.path.basename` for POSIX paths as used by the source (directory
scans and joins of a dirname with a file name): the part after the last `/`. -/
def basenameOf (p : String) : String :=
  match lastIdxOf p.data '/' with
  | none => p
  | some i => ⟨p.data.drop (i + 1)⟩

/-- `os.path.dirname` for the same path shapes: the part before the last
`/` (empty when there is no `/`). -/
def dirnameOf (p : String) : String :=
  match lastIdxOf p.data '/' with
  | none => ""
  | some i => ⟨p.data.take i⟩

/-- `os.path.join dir name` for the shapes produced by the source
(`dir` is `os.path.dirname` output, never ending in `/`). -/
def joinPath (d n : String) : String :=
  if d = "" then n else d ++ "/" ++ n

/-- `pathlib`'s split of a final path component into stem and suffix:
`i = name.rfind('.')`; the suffix is `name[i:]` when `0 < i < len name - 1`,
else empty. -/
def pyStemSuffix (name : String) : String × String :=
  let cs := name.data
  match lastIdxOf cs '.' with
  | some i =>
      if 0 < i ∧ i < cs.length - 1 then (⟨cs.take i⟩, ⟨cs.drop i⟩) else (name, "")
  | none => (name, "")

/-- `Path(p).stem`. -/
def pyStem (p : String) : String := (pyStemSuffix (basenameOf p)).1

/-- `Path(p).suffix`. -/
def pySuffix (p : String) : String := (pyStemSuffix (basenameOf p)).2

/-- A-side (reference) record: the `group_a_info` dict values.
`.get('width', 0)`-style reads make an absent key equal to this default. -/
structure AInfo where
  text : String := ""
  width : Nat := 0
  height : Nat := 0
  used : Bool := false
deriving Repr, DecidableEq, Inhabited

/-- B-side (candidate) record: the `group_b_info` dict values.  Keys the
source reads with a fallback (`new_name`, `original_name`, `matched_a_path`)
are `Option`s, `none` meaning the key is absent from the Python dict. -/
structure BInfo where
  text : String := ""
  width : Nat := 0
  height : Nat := 0
  matched : Bool := false
  similarity : ℚ := 0
  matched_a_path : Option String := none
  new_name : Option String := none
  original_name : Option String := none
  renamed : Bool := false
deriving Repr, DecidableEq, Inhabited

/-- The in-memory state of `OCRImageMatcher` that the matcher and the rename
engine read and write, plus the filesystem (`fs` = the set of existing paths). -/
structure AppState where
  fs : List String := []
  group_a_images : List String := []
  group_a_texts : Dict String := []
  group_a_info : Dict AInfo := []
  group_b_images : List String := []
  group_b_texts : Dict String := []
  group_b_info : Dict BInfo := []
deriving Repr, DecidableEq, Inhabited

/-- An accepted match of one pass (`auto_match_and_rename`, lines 2320-2346):
candidate `b_path` is paired with reference `a_path` at `similarity`. -/
structure MatchDecision where
  a_path : String
  b_path : String
  similarity : ℚ
deriving Repr, DecidableEq

/-- The geometry constraint (lines 2303-2306): with the size limit active and
all four dimensions known (non-zero), a pair whose dimensions differ is
skipped; otherwise the constraint never excludes the pair. -/
def geometryExcluded (ignore_size_limit : Bool) (aw ah bw bh : Nat) : Bool :=
  if ignore_size_limit then false
  else if aw ≠ 0 ∧ ah ≠ 0 ∧ bw ≠ 0 ∧ bh ≠ 0 then
    decide (aw ≠ bw ∨ ah ≠ bh)
  else false

/-- The three `continue` guards of the inner reference loop
(lines 2291-2306): a reference is considered iff it is not in the pass-local
`used_a_matches` set, its recognized text is non-blank, and the geometry
constraint does not exclude the pair. -/
def refEligible (a_texts : Dict String) (a_info : Dict AInfo)
    (used_a_matches : List String) (ignore_size_limit : Bool) (bw bh : Nat)
    (a_path : String) : Bool :=
  if used_a_matches.contains a_path then false
  else
    let a_text := (dget a_texts a_path).getD ""
    if pyStrip a_text = "" then false
    else
      let ai := (dget a_info a_path).getD {}
      ¬ geometryExcluded ignore_size_limit ai.width ai.height bw bh

/-- One iteration of the inner loop (lines 2291-2317): update the running
best `(best_match_a_path, best_similarity)`, replacing it only when the new
similarity reaches the threshold and strictly exceeds the running best. -/
def best_step (score : String → String → ℚ) (threshold : ℚ)
    (ignore_size_limit : Bool) (a_texts : Dict String) (a_info : Dict AInfo)
    (used_a_matches : List String) (b_text : String) (bw bh : Nat)
    (best : Option String × ℚ) (a_path : String) : Option String × ℚ :=
  if refEligible a_texts a_info used_a_matches ignore_size_limit bw bh a_path then
    let a_text := (dget a_texts a_path).getD ""
    let s := score a_text b_text
    if threshold ≤ s ∧ best.2 < s then (some a_path, s) else best
  else best

/-- The inner loop over `group_a_images` (lines 2283-2317), starting from
`best_match_a_path = None`, `best_similarity = 0`. -/
def best_loop (score : String → String → ℚ) (threshold : ℚ)
    (ignore_size_limit : Bool) (a_texts : Dict String) (a_info : Dict AInfo)
    (used_a_matches : List String) (b_text : String) (bw bh : Nat) :
    List String → Option String × ℚ → Option String × ℚ
  | [], best => best
  | a_path :: rest, best =>
      best_loop score threshold ignore_size_limit a_texts a_info used_a_matches
        b_text bw bh rest
        (best_step score threshold ignore_size_limit a_texts a_info
          used_a_matches b_text bw bh best a_path)

/-- The record update on acceptance (lines 2327-2333). -/
def matchAcceptUpdate (bi : BInfo) (a_path : String) (s : ℚ)
    (name : String) : BInfo :=
  { bi with matched := true, similarity := s, matched_a_path := some a_path,
            new_name := some name, renamed := false }

/-- Mutable state threaded through one matching pass. -/
structure MatchAcc where
  a_info : Dict AInfo
  b_info : Dict BInfo
  used_a_matches : List String
  decisions : List MatchDecision
deriving Repr, DecidableEq

/-- Processing of one candidate (the body of the outer loop,
lines 2274-2346): skip candidates already matched or with blank text,
find the best eligible reference, and on success record the match, mark the
reference used, and add it to the pass-local used set.  The `decisions`
field instruments the accepted matches (the source counts them into
`success_count` / `warning_count`). -/
def match_step (score : String → String → ℚ) (threshold : ℚ)
    (ignore_size_limit : Bool) (a_images : List String)
    (a_texts b_texts : Dict String) (acc : MatchAcc) (b_path : String) :
    MatchAcc :=
  let bi := (dget acc.b_info b_path).getD {}
  if bi.matched then acc
  else
    let b_text := (dget b_texts b_path).getD ""
    if pyStrip b_text = "" then acc
    else
      match best_loop score threshold ignore_size_limit a_texts acc.a_info
          acc.used_a_matches b_text bi.width bi.height a_images (none, 0) with
      | (none, _) => acc
      | (some a_path, s) =>
          if a_path ≠ "" ∧ threshold ≤ s then
            let name := pyStem a_path ++ pySuffix b_path
            let ai := (dget acc.a_info a_path).getD {}
            { a_info := dset acc.a_info a_path { ai with used := true },
              b_info := dset acc.b_info b_path (matchAcceptUpdate bi a_path s name),
              used_a_matches := acc.used_a_matches ++ [a_path],
              decisions := acc.decisions ++ [⟨a_path, b_path, s⟩] }
          else acc

/-- The outer loop over `group_b_images`. -/
def match_loop (score : String → String → ℚ) (threshold : ℚ)
    (ignore_size_limit : Bool) (a_images : List String)
    (a_texts b_texts : Dict String) : List String → MatchAcc → MatchAcc
  | [], acc => acc
  | b_path :: rest, acc =>
      match_loop score threshold ignore_size_limit a_images a_texts b_texts rest
        (match_step score threshold ignore_size_limit a_images a_texts b_texts
          acc b_path)

/-- The matching phase of `auto_match_and_rename` (lines 2270-2346): a single
greedy pass with `used_a_matches = set()`, returning the mutated state and the
accepted decisions.  (The subsequent call to `apply_matched_renames` is
modelled separately, as in the source it is a distinct method.) -/
def auto_match_pass (score : String → String → ℚ) (threshold : ℚ)
    (ignore_size_limit : Bool) (st : AppState) :
    AppState × List MatchDecision :=
  let acc := match_loop score threshold ignore_size_limit st.group_a_images
    st.group_a_texts st.group_b_texts st.group_b_images
    { a_info := st.group_a_info, b_info := st.group_b_info,
      used_a_matches := [], decisions := [] }
  ({ st with group_a_info := acc.a_info, group_b_info := acc.b_info },
   acc.decisions)

/-- `os.rename src dst` on the set of existing paths (the source always
guards so that `dst` is free or equal to `src` before calling it). -/
def osRename (fs : List String) (src dst : String) : List String :=
  (fs.erase src) ++ [dst]

/-- The collision-avoidance loop used (four times) by the source:

    counter = 1
    original = p
    while os.path.exists(p) and p != self:
        p = os.path.join(dir, f"{stem0}_{counter}{ext0}")
        counter += 1

`fuel` bounds the iterations; the source loop terminates because the
candidate names are pairwise distinct and the filesystem is finite, and the
fuel `fs.length + 1` used below always suffices for the runs appearing in
the theorems of this file. -/
def collide_go (fs : List String) (self dir stem0 ext0 : String) :
    Nat → String → Nat → String
  | fuel, p, k =>
      if fs.contains p ∧ p ≠ self then
        match fuel with
        | 0 => p
        | fuel' + 1 =>
            collide_go fs self dir stem0 ext0 fuel'
              (joinPath dir (stem0 ++ "_" ++ Nat.repr k ++ ext0)) (k + 1)
      else p

/-- Run the collision loop from `start` with adequate fuel. -/
def collisionSearch (fs : List String) (self dir stem0 ext0 start : String) :
    String :=
  collide_go fs self dir stem0 ext0 (fs.length + 1) start 1

/-- Oracles for the two environment effects inside the rename engine:
`err src dst` decides whether `os.rename(src, dst)` raises an `OSError`, and
`tok n` is the `n`-th draw of the time-derived token
`str(int(_time() * 1000))[-6:]`. -/
structure RenameCtx where
  err : String → String → Bool
  tok : Nat → String

/-- State threaded through a rename batch: the app state, the
`success_count` / `error_count` counters, and the number of token draws. -/
structure RenameAcc where
  st : AppState
  success_count : Nat := 0
  error_count : Nat := 0
  draws : Nat := 0
deriving Repr, DecidableEq

/-- Record update applied to an evicted holder of the target name
(lines 2424-2428, and identically 2557-2561 and 2651-2655): unmatched,
claim dropped, display name set to the restored name, `renamed` kept true. -/
def releaseUpdate (bi : BInfo) (restore_path : String) : BInfo :=
  { bi with matched := false, matched_a_path := none,
            new_name := some (basenameOf restore_path), renamed := true }

/-- One iteration of the eviction loop (lines 2382-2439; duplicated verbatim
in `manual_match` at lines 2515-2572): if another managed, already-renamed
candidate currently holds the target file name, physically rename it back to
its original name (or to a token-suffixed free name when the original is
occupied) and clear its match state.  A failing `os.rename` is caught by the
inner `except` and skips all state updates for that holder (the source
mutates nothing before the rename call). -/
def releaseStep (ctx : RenameCtx) (b_path new_name : String)
    (acc : RenameAcc) (entry : String × BInfo) : RenameAcc :=
  let other_b_path := entry.1
  let other_info := entry.2
  if other_b_path = b_path then acc
  else if other_info.renamed = false then acc
  else if basenameOf other_b_path ≠ new_name then acc
  else
    let other_original_name :=
      other_info.original_name.getD (basenameOf other_b_path)
    let other_dir := dirnameOf other_b_path
    let restore0 := joinPath other_dir other_original_name
    let restoreDraws :=
      if acc.st.fs.contains restore0 ∧ restore0 ≠ other_b_path then
        let ext := (pyStemSuffix other_original_name).2
        let base := (pyStemSuffix other_original_name).1
        let start := joinPath other_dir
          (base ++ "_restored_" ++ ctx.tok acc.draws ++ ext)
        (collisionSearch acc.st.fs other_b_path other_dir (pyStem start) ext
          start, acc.draws + 1)
      else (restore0, acc.draws)
    let restore_path := restoreDraws.1
    let doRen := acc.st.fs.contains other_b_path ∧ other_b_path ≠ restore_path
    if doRen ∧ ctx.err other_b_path restore_path then
      { acc with draws := restoreDraws.2 }
    else
      let st := acc.st
      let fs' := if doRen then osRename st.fs other_b_path restore_path
                 else st.fs
      let images' := listReplace st.group_b_images other_b_path restore_path
      let texts' := drekey st.group_b_texts other_b_path restore_path
      let info_old := (dget st.group_b_info other_b_path).getD {}
      { acc with
          draws := restoreDraws.2
          st := { st with
                    fs := fs'
                    group_b_images := images'
                    group_b_texts := texts'
                    group_b_info := dset (dpop st.group_b_info other_b_path)
                      restore_path (releaseUpdate info_old restore_path) } }

/-- The eviction loop over the snapshot `list(self.group_b_info.items())`. -/
def release_loop (ctx : RenameCtx) (b_path new_name : String) :
    RenameAcc → List (String × BInfo) → RenameAcc
  | acc, [] => acc
  | acc, entry :: rest =>
      release_loop ctx b_path new_name
        (releaseStep ctx b_path new_name acc entry) rest

/-- Record update on a successful physical rename inside
`apply_matched_renames` (lines 2461-2468): capture `original_name` only when
it is not yet present, then record the new display name and `renamed = true`. -/
def renameSuccessUpdate (bi : BInfo) (b_path new_path : String) : BInfo :=
  let bi1 := if bi.original_name.isSome then bi
             else { bi with original_name := some (basenameOf b_path) }
  { bi1 with new_name := some (basenameOf new_path), renamed := true }

/-- Processing of one pending item of `apply_matched_renames`
(lines 2374-2482).  `item` is the `(b_path, info)` pair from the pending
snapshot; the target name is read from the snapshot info, everything else
from the live state.  When the final target path equals the current path the
item is skipped outright (`跳过 ... 名称相同`): no rename, no record update,
no counter change.  An `os.rename` failure on the item itself is caught by
the per-item `except` (lines 2480-2482): the record and file stay as they
were after the eviction loop and `error_count` is incremented. -/
def applyStep (ctx : RenameCtx) (acc : RenameAcc) (item : String × BInfo) :
    RenameAcc :=
  let b_path := item.1
  let b_info := item.2
  let new_name := b_info.new_name.getD (basenameOf b_path)
  let b_dir := dirnameOf b_path
  let new_path0 := joinPath b_dir new_name
  let acc1 := release_loop ctx b_path new_name acc acc.st.group_b_info
  let new_path := collisionSearch acc1.st.fs b_path b_dir (pyStem new_path0)
    (pySuffix new_path0) new_path0
  if new_path ≠ b_path then
    if ctx.err b_path new_path then
      { acc1 with error_count := acc1.error_count + 1 }
    else
      let st := acc1.st
      let fs' := osRename st.fs b_path new_path
      let images' := listReplace st.group_b_images b_path new_path
      let texts' := drekey st.group_b_texts b_path new_path
      let binfo' :=
        match dget st.group_b_info b_path with
        | some info => dset (dpop st.group_b_info b_path) new_path
            (renameSuccessUpdate info b_path new_path)
        | none => st.group_b_info
      { acc1 with
          success_count := acc1.success_count + 1
          st := { st with
                    fs := fs'
                    group_b_images := images'
                    group_b_texts := texts'
                    group_b_info := binfo' } }
  else acc1

/-- The batch loop over the pending snapshot. -/
def apply_loop (ctx : RenameCtx) :
    RenameAcc → List (String × BInfo) → RenameAcc
  | acc, [] => acc
  | acc, item :: rest => apply_loop ctx (applyStep ctx acc item) rest

/-- `apply_matched_renames` (lines 2357-2490): snapshot all records with
`matched == true` and `renamed == false` and process them in order. -/
def apply_matched_renames (ctx : RenameCtx) (st : AppState) : RenameAcc :=
  let pending := st.group_b_info.filter (fun p => p.2.matched && !p.2.renamed)
  apply_loop ctx { st := st } pending

/-- Record update for a prior claimant of the same reference that was never
physically renamed (lines 2658-2662): simply unmatched, `renamed` untouched. -/
def unmatchUpdate (bi : BInfo) (other_b_path : String) : BInfo :=
  { bi with matched := false, matched_a_path := none,
            new_name := some (basenameOf other_b_path) }

/-- One iteration of `manual_match`'s second loop (lines 2615-2664): every
other candidate still claiming the same reference is released; if it had
been physically renamed it is first moved to a token-suffixed free name. -/
def oldClaimStep (ctx : RenameCtx) (a_path new_path : String)
    (acc : RenameAcc) (entry : String × BInfo) : RenameAcc :=
  let other_b_path := entry.1
  let other_info := entry.2
  if other_b_path = new_path then acc
  else if other_info.matched = false then acc
  else if other_info.matched_a_path ≠ some a_path then acc
  else if other_info.renamed then
    let other_dir := dirnameOf other_b_path
    let ext := pySuffix other_b_path
    let base := pyStem other_b_path
    let start := joinPath other_dir
      (base ++ "_old_" ++ ctx.tok acc.draws ++ ext)
    let alt_path := collisionSearch acc.st.fs other_b_path other_dir
      (pyStem start) ext start
    let draws' := acc.draws + 1
    let doRen := acc.st.fs.contains other_b_path ∧ other_b_path ≠ alt_path
    if doRen ∧ ctx.err other_b_path alt_path then { acc with draws := draws' }
    else
      let st := acc.st
      let fs' := if doRen then osRename st.fs other_b_path alt_path else st.fs
      let images' := listReplace st.group_b_images other_b_path alt_path
      let texts' := drekey st.group_b_texts other_b_path alt_path
      let info_old := (dget st.group_b_info other_b_path).getD {}
      { acc with
          draws := draws'
          st := { st with
                    fs := fs'
                    group_b_images := images'
                    group_b_texts := texts'
                    group_b_info := dset (dpop st.group_b_info other_b_path)
                      alt_path (releaseUpdate info_old alt_path) } }
  else
    let binfo' := dset acc.st.group_b_info other_b_path
      (unmatchUpdate other_info other_b_path)
    { acc with st := { acc.st with group_b_info := binfo' } }

/-- The loop over the post-rename snapshot `list(self.group_b_info.items())`
in `manual_match`. -/
def oldClaim_loop (ctx : RenameCtx) (a_path new_path : String) :
    RenameAcc → List (String × BInfo) → RenameAcc
  | acc, [] => acc
  | acc, entry :: rest =>
      oldClaim_loop ctx a_path new_path
        (oldClaimStep ctx a_path new_path acc entry) rest

/-- Record update on the forced pair's successful rename in `manual_match`
(lines 2595-2605). -/
def manualSuccessUpdate (bi : BInfo) (a_path b_path new_path : String) :
    BInfo :=
  let bi1 := if bi.original_name.isSome then bi
             else { bi with original_name := some (basenameOf b_path) }
  { bi1 with matched := true, matched_a_path := some a_path,
             new_name := some (basenameOf new_path), renamed := true }

/-- `manual_match` (lines 2492-2693) for a chosen reference `a_path` and
candidate `b_path` (the GUI guards selecting the pair are outside the model):
evict any managed holder of the target name, find a free target path, and if
it differs from the current path perform the rename, update the record and
the reference's `used` flag, and release all other claimants of the same
reference.  When the target equals the current path the method only logs
`跳过 ... 名称相同` — no state change at all.  A failure of the forced pair's
own rename is caught by the outer `except` (line 2691), keeping whatever the
eviction loop already did. -/
def manual_match (ctx : RenameCtx) (st : AppState) (a_path b_path : String) :
    RenameAcc :=
  let new_name := pyStem a_path ++ pySuffix b_path
  let b_dir := dirnameOf b_path
  let new_path0 := joinPath b_dir new_name
  let acc1 := release_loop ctx b_path new_name { st := st } st.group_b_info
  let new_path := collisionSearch acc1.st.fs b_path b_dir (pyStem new_path0)
    (pySuffix new_path0) new_path0
  if new_path ≠ b_path then
    if ctx.err b_path new_path then acc1
    else
      let st1 := acc1.st
      let fs' := osRename st1.fs b_path new_path
      let images' := listReplace st1.group_b_images b_path new_path
      let texts' := drekey st1.group_b_texts b_path new_path
      let binfo' :=
        match dget st1.group_b_info b_path with
        | some info => dset (dpop st1.group_b_info b_path) new_path
            (manualSuccessUpdate info a_path b_path new_path)
        | none => st1.group_b_info
      let ai := (dget st1.group_a_info a_path).getD {}
      let ainfo' := dset st1.group_a_info a_path { ai with used := true }
      let st2 : AppState :=
        { st1 with
            fs := fs'
            group_b_images := images'
            group_b_texts := texts'
            group_b_info := binfo'
            group_a_info := ainfo' }
      oldClaim_loop ctx a_path new_path { acc1 with st := st2 }
        st2.group_b_info
  else acc1

/-- `auto_match_and_rename` (lines 2261-2355): unless either side still has
no recognized text, run one matching pass and immediately apply the rename
batch to all matched, not-yet-renamed records (line 2355).  The
`update_a_table` / `update_b_table` calls between the phases only redraw the
GUI grids from the carried state. -/
def auto_match_and_rename (score : String → String → ℚ) (T : ℚ) (ig : Bool)
    (ctx : RenameCtx) (st : AppState) : AppState :=
  if st.group_a_texts = [] ∨ st.group_b_texts = [] then st
  else (apply_matched_renames ctx (auto_match_pass score T ig st).1).st

/-- `trigger_auto_match_if_ready` (lines 1690-1695): when both collections
have recognized text, run the automatic match-and-rename. -/
def trigger_auto_match_if_ready (score : String → String → ℚ) (T : ℚ)
    (ig : Bool) (ctx : RenameCtx) (st : AppState) : AppState :=
  if st.group_a_texts ≠ [] ∧ st.group_b_texts ≠ [] then
    auto_match_and_rename score T ig ctx st
  else st

/-- `on_b_card_delete` (lines 2021-2034): remove the candidate record (the
file itself and the A-side records are not touched by the removal), then
re-attempt the automatic match (`trigger_auto_match_if_ready`, line 2034). -/
def on_b_card_delete (score : String → String → ℚ) (T : ℚ) (ig : Bool)
    (ctx : RenameCtx) (st : AppState) (img_path : String) : AppState :=
  trigger_auto_match_if_ready score T ig ctx
    { st with
        group_b_images := st.group_b_images.erase img_path
        group_b_texts := dpop st.group_b_texts img_path
        group_b_info := dpop st.group_b_info img_path }

/-- `clear_b_images` (lines 2702-2739), state part: drop all B-side data and
reset every A-side `used` flag to `False`. -/
def clear_b_images (st : AppState) : AppState :=
  { st with group_b_images := [], group_b_texts := [], group_b_info := [],
            group_a_info := st.group_a_info.map
              (fun p => if p.2.used then (p.1, { p.2 with used := false })
                        else p) }

/-- The fresh B-side record created by `add_images_to_group_b`
(lines 1511-1520). -/
def newBInfo (img : String) : BInfo :=
  { text := "", width := 0, height := 0, matched := false,
    new_name := some (basenameOf img),
    original_name := some (basenameOf img) }

/-- `add_images_to_group_b` (lines 1498-1529), state part: append unseen
paths and create records for paths without one (OCR start omitted). -/
def add_images_to_group_b (st : AppState) (image_files : List String) :
    AppState :=
  { st with
    group_b_images := image_files.foldl
      (fun l img => if l.contains img then l else l ++ [img])
      st.group_b_images,
    group_b_info := image_files.foldl
      (fun d img => if (dget d img).isSome then d else dset d img (newBInfo img))
      st.group_b_info }

/-! ### Dictionary lemmas -/

theorem dget_dset_self {β : Type} (d : Dict β) (k : String) (v : β) :
    dget (dset d k v) k = some v := by
  induction d with
  | nil => simp [dget, dset]
  | cons p rest ih =>
      by_cases h : p.1 = k
      · simp [dset, h, dget]
      · simp [dset, h, dget, ih]

theorem dget_dset_ne {β : Type} (d : Dict β) (k k' : String) (v : β)
    (h : k' ≠ k) : dget (dset d k v) k' = dget d k' := by
  induction d with
  | nil => simp [dget, dset, h.symm]
  | cons p rest ih =>
      by_cases hk : p.1 = k
      · simp [dset, hk, dget, h.symm]
      · simp [dset, hk, dget, ih]

theorem dget_dpop_ne {β : Type} (d : Dict β) (k k' : String)
    (h : k' ≠ k) : dget (dpop d k) k' = dget d k' := by
  induction d with
  | nil => rfl
  | cons p rest ih =>
      by_cases hk : p.1 = k
      · have hp : p.1 ≠ k' := fun hh => h (hk.symm.trans hh).symm
        cases p
        simp_all [dpop, dget]
      · cases p
        simp_all [dpop, dget]

theorem dget_mem {β : Type} {d : Dict β} {k : String} {v : β}
    (h : dget d k = some v) : (k, v) ∈ d := by
  induction d with
  | nil => simp [dget] at h
  | cons p rest ih =>
      by_cases hk : p.1 = k
      · simp [dget, hk] at h
        cases p
        simp_all
      · simp [dget, hk] at h
        exact List.mem_cons_of_mem _ (ih h)

theorem mem_dset {β : Type} {d : Dict β} {k : String} {v : β}
    {e : String × β} (h : e ∈ dset d k v) : e = (k, v) ∨ e ∈ d := by
  induction d with
  | nil => simpa [dset] using h
  | cons p rest ih =>
      by_cases hk : p.1 = k
      · simp [dset, hk] at h
        rcases h with h | h
        · exact Or.inl h
        · exact Or.inr (List.mem_cons_of_mem _ h)
      · simp [dset, hk] at h
        rcases h with h | h
        · exact Or.inr (by simp [h])
        · rcases ih h with h' | h'
          · exact Or.inl h'
          · exact Or.inr (List.mem_cons_of_mem _ h')

theorem mem_dpop {β : Type} {d : Dict β} {k : String} {e : String × β}
    (h : e ∈ dpop d k) : e ∈ d := by
  induction d with
  | nil => simp [dpop] at h
  | cons p rest ih =>
      by_cases hk : p.1 = k
      · simp [dpop, hk] at h
        exact List.mem_cons_of_mem _ h
      · simp [dpop, hk] at h
        rcases h with h | h
        · simp [h]
        · exact List.mem_cons_of_mem _ (ih h)

theorem mem_dkeys_of_mem {β : Type} {d : Dict β} {e : String × β}
    (h : e ∈ d) : e.1 ∈ dkeys d := List.mem_map_of_mem _ h

theorem mem_dpop_of_nodup {β : Type} {d : Dict β} {k : String}
    {e : String × β} (hn : (dkeys d).Nodup) (h : e ∈ dpop d k) :
    e ∈ d ∧ e.1 ≠ k := by
  induction d with
  | nil => simp [dpop] at h
  | cons p rest ih =>
      have hn' : (dkeys rest).Nodup := (List.nodup_cons.mp hn).2
      have hp : p.1 ∉ dkeys rest := (List.nodup_cons.mp hn).1
      by_cases hk : p.1 = k
      · simp [dpop, hk] at h
        refine ⟨List.mem_cons_of_mem _ h, ?_⟩
        intro hek
        apply hp
        rw [hk]
        exact hek ▸ mem_dkeys_of_mem h
      · simp [dpop, hk] at h
        rcases h with h | h
        · exact ⟨by simp [h], by simp [h, hk]⟩
        · rcases ih hn' h with ⟨h1, h2⟩
          exact ⟨List.mem_cons_of_mem _ h1, h2⟩

theorem mem_dkeys_dset {β : Type} {d : Dict β} {k x : String} {v : β}
    (h : x ∈ dkeys (dset d k v)) : x = k ∨ x ∈ dkeys d := by
  rcases List.mem_map.mp h with ⟨e, he, hex⟩
  rcases mem_dset he with h' | h'
  · left
    rw [← hex, h']
  · right
    exact hex ▸ List.mem_map_of_mem _ h'

theorem mem_dkeys_dpop {β : Type} {d : Dict β} {k x : String}
    (h : x ∈ dkeys (dpop d k)) : x ∈ dkeys d := by
  rcases List.mem_map.mp h with ⟨e, he, hex⟩
  exact hex ▸ List.mem_map_of_mem _ (mem_dpop he)

theorem dkeys_dset_nodup {β : Type} {d : Dict β} (k : String) (v : β)
    (hn : (dkeys d).Nodup) : (dkeys (dset d k v)).Nodup := by
  induction d with
  | nil => simp [dset, dkeys]
  | cons p rest ih =>
      have hn' : (dkeys rest).Nodup := (List.nodup_cons.mp hn).2
      have hp : p.1 ∉ dkeys rest := (List.nodup_cons.mp hn).1
      simp only [dkeys] at hp
      by_cases hk : p.1 = k
      · have hd : dset (p :: rest) k v = (k, v) :: rest := by
          cases p
          simp_all [dset]
        rw [hd]
        simp only [dkeys, List.map_cons, List.nodup_cons]
        refine ⟨?_, hn'⟩
        intro hmem
        rw [← hk] at hmem
        exact hp hmem
      · have hd : dset (p :: rest) k v = p :: dset rest k v := by
          cases p
          simp_all [dset]
        rw [hd]
        simp only [dkeys, List.map_cons, List.nodup_cons]
        refine ⟨?_, ih hn'⟩
        intro hmem
        rcases mem_dkeys_dset hmem with h' | h'
        · exact hk h'
        · exact hp h'

theorem dkeys_dpop_nodup {β : Type} {d : Dict β} (k : String)
    (hn : (dkeys d).Nodup) : (dkeys (dpop d k)).Nodup := by
  induction d with
  | nil => simp [dpop, dkeys]
  | cons p rest ih =>
      have hn' : (dkeys rest).Nodup := (List.nodup_cons.mp hn).2
      have hp : p.1 ∉ dkeys rest := (List.nodup_cons.mp hn).1
      by_cases hk : p.1 = k
      · have hd : dpop (p :: rest) k = rest := by
          cases p
          simp_all [dpop]
        rw [hd]
        exact hn'
      · have hd : dpop (p :: rest) k = p :: dpop rest k := by
          cases p
          simp_all [dpop]
        rw [hd]
        simp only [dkeys, List.map_cons, List.nodup_cons]
        refine ⟨?_, ih hn'⟩
        intro hmem
        exact hp (mem_dkeys_dpop hmem)

/-! ### Inner-loop (best reference) lemmas -/

/-- The similarity the source computes for reference `a_path` against the
fixed candidate text (line 2310 / 2313). -/
def refScore (score : String → String → ℚ) (a_texts : Dict String)
    (b_text : String) (a_path : String) : ℚ :=
  score ((dget a_texts a_path).getD "") b_text

section MatcherLemmas

variable (score : String → String → ℚ) (T : ℚ) (ig : Bool)
variable (a_texts : Dict String) (a_info : Dict AInfo)
variable (used : List String) (b_text : String) (bw bh : Nat)

theorem best_step_eq (best : Option String × ℚ) (a_path : String) :
    best_step score T ig a_texts a_info used b_text bw bh best a_path =
      if refEligible a_texts a_info used ig bw bh a_path = true then
        if T ≤ refScore score a_texts b_text a_path ∧
            best.2 < refScore score a_texts b_text a_path then
          (some a_path, refScore score a_texts b_text a_path)
        else best
      else best := rfl

theorem best_step_mono (best : Option String × ℚ) (a_path : String) :
    best.2 ≤ (best_step score T ig a_texts a_info used b_text bw bh
      best a_path).2 := by
  rw [best_step_eq]
  by_cases he : refEligible a_texts a_info used ig bw bh a_path = true
  · rw [if_pos he]
    by_cases hc : T ≤ refScore score a_texts b_text a_path ∧
        best.2 < refScore score a_texts b_text a_path
    · rw [if_pos hc]
      exact le_of_lt hc.2
    · rw [if_neg hc]
  · rw [if_neg he]

theorem best_loop_mono : ∀ (l : List String) (best : Option String × ℚ),
    best.2 ≤ (best_loop score T ig a_texts a_info used b_text bw bh l best).2
  | [], _ => le_refl _
  | a_path :: rest, best =>
      le_trans (best_step_mono score T ig a_texts a_info used b_text bw bh
          best a_path)
        (best_loop_mono rest
          (best_step score T ig a_texts a_info used b_text bw bh best a_path))

theorem best_loop_append (l1 l2 : List String) (best : Option String × ℚ) :
    best_loop score T ig a_texts a_info used b_text bw bh (l1 ++ l2) best =
      best_loop score T ig a_texts a_info used b_text bw bh l2
        (best_loop score T ig a_texts a_info used b_text bw bh l1 best) := by
  induction l1 generalizing best with
  | nil => rfl
  | cons x rest ih => simpa [best_loop] using ih _

/-- Where a value of the inner loop can come from: either the accumulator is
returned untouched, or the winner is an eligible element of the list whose
similarity reached the threshold and strictly beat the accumulator. -/
theorem best_loop_origin :
    ∀ (l : List String) (best : Option String × ℚ) (a : String) (s : ℚ),
    best_loop score T ig a_texts a_info used b_text bw bh l best =
      (some a, s) →
    best = (some a, s) ∨
      (a ∈ l ∧ refEligible a_texts a_info used ig bw bh a = true ∧
        refScore score a_texts b_text a = s ∧ T ≤ s ∧ best.2 < s)
  | [], best, a, s, h => Or.inl h
  | x :: rest, best, a, s, h => by
      have h' : best_loop score T ig a_texts a_info used b_text bw bh rest
          (best_step score T ig a_texts a_info used b_text bw bh best x) =
          (some a, s) := h
      rcases best_loop_origin rest _ a s h' with h1 | h1
      · rw [best_step_eq] at h1
        by_cases he : refEligible a_texts a_info used ig bw bh x = true
        · rw [if_pos he] at h1
          by_cases hc : T ≤ refScore score a_texts b_text x ∧
              best.2 < refScore score a_texts b_text x
          · rw [if_pos hc] at h1
            have hax : a = x := by
              have := congrArg Prod.fst h1
              simpa using this.symm
            have hs : refScore score a_texts b_text x = s := by
              have := congrArg Prod.snd h1
              simpa using this
            subst hax
            exact Or.inr ⟨List.mem_cons_self _ _, he, hs, hs ▸ hc.1,
              hs ▸ hc.2⟩
          · rw [if_neg hc] at h1
            exact Or.inl h1
        · rw [if_neg he] at h1
          exact Or.inl h1
      · refine Or.inr ⟨List.mem_cons_of_mem _ h1.1, h1.2.1, h1.2.2.1,
          h1.2.2.2.1, lt_of_le_of_lt ?_ h1.2.2.2.2⟩
        exact best_step_mono score T ig a_texts a_info used b_text bw bh best x

/-- Every eligible list element whose similarity reaches the threshold is a
lower bound for the final running best. -/
theorem best_loop_bound :
    ∀ (l : List String) (best : Option String × ℚ) (a' : String),
    a' ∈ l → refEligible a_texts a_info used ig bw bh a' = true →
    T ≤ refScore score a_texts b_text a' →
    refScore score a_texts b_text a' ≤
      (best_loop score T ig a_texts a_info used b_text bw bh l best).2
  | [], _, a', hmem, _, _ => absurd hmem (List.not_mem_nil a')
  | x :: rest, best, a', hmem, he, hT => by
      rcases List.mem_cons.mp hmem with hax | hmem'
      · subst hax
        refine le_trans ?_ (best_loop_mono score T ig a_texts a_info used
          b_text bw bh rest _)
        rw [best_step_eq, if_pos he]
        by_cases hc : T ≤ refScore score a_texts b_text a' ∧
            best.2 < refScore score a_texts b_text a'
        · rw [if_pos hc]
        · have hnb : ¬ best.2 < refScore score a_texts b_text a' :=
            fun hlt => hc ⟨hT, hlt⟩
          rw [if_neg hc]
          exact not_lt.mp hnb
      · exact best_loop_bound rest _ a' hmem' he hT

end MatcherLemmas

/-- The first occurrence of a member splits the list. -/
theorem exists_first_occurrence {α : Type} [DecidableEq α] {a : α}
    {l : List α} (h : a ∈ l) : ∃ l1 l2, l = l1 ++ a :: l2 ∧ a ∉ l1 := by
  induction l with
  | nil => cases h
  | cons x rest ih =>
      by_cases hx : x = a
      · exact ⟨[], rest, by simp [hx], by simp⟩
      · have h' : a ∈ rest := by
          rcases List.mem_cons.mp h with h0 | h0
          · exact absurd h0.symm hx
          · exact h0
        rcases ih h' with ⟨l1, l2, hl, hnl⟩
        refine ⟨x :: l1, l2, by simp [hl], ?_⟩
        simp only [List.mem_cons, not_or]
        exact ⟨fun hh => hx hh.symm, hnl⟩

/-! ### Outer-loop (candidate) lemmas -/

section PassLemmas

variable (score : String → String → ℚ) (T : ℚ) (ig : Bool)
variable (a_images : List String) (a_texts b_texts : Dict String)

theorem match_step_eq (acc : MatchAcc) (b_path : String) :
    match_step score T ig a_images a_texts b_texts acc b_path =
      if ((dget acc.b_info b_path).getD {}).matched = true then acc
      else if pyStrip ((dget b_texts b_path).getD "") = "" then acc
      else
        match best_loop score T ig a_texts acc.a_info acc.used_a_matches
            ((dget b_texts b_path).getD "")
            ((dget acc.b_info b_path).getD {}).width
            ((dget acc.b_info b_path).getD {}).height a_images (none, 0) with
        | (none, _) => acc
        | (some a_path, s) =>
            if a_path ≠ "" ∧ T ≤ s then
              { a_info := dset acc.a_info a_path
                  { (dget acc.a_info a_path).getD {} with used := true },
                b_info := dset acc.b_info b_path
                  (matchAcceptUpdate ((dget acc.b_info b_path).getD {})
                    a_path s (pyStem a_path ++ pySuffix b_path)),
                used_a_matches := acc.used_a_matches ++ [a_path],
                decisions := acc.decisions ++ [⟨a_path, b_path, s⟩] }
            else acc := rfl

/-- A record that is already matched is never touched by a later candidate's
processing, and any decision added concerns the processed candidate only. -/
theorem match_step_keeps_matched (acc : MatchAcc) (bp b : String)
    (bi : BInfo) (hb : dget acc.b_info b = some bi)
    (hm : bi.matched = true) :
    dget (match_step score T ig a_images a_texts b_texts acc bp).b_info b =
      some bi ∧
    ∀ d ∈ (match_step score T ig a_images a_texts b_texts acc bp).decisions,
      d ∈ acc.decisions ∨ d.b_path ≠ b := by
  rw [match_step_eq]
  by_cases h1 : ((dget acc.b_info bp).getD {}).matched = true
  · rw [if_pos h1]
    exact ⟨hb, fun d hd => Or.inl hd⟩
  · rw [if_neg h1]
    have hne : b ≠ bp := by
      intro he
      subst he
      rw [hb] at h1
      exact h1 (by simpa using hm)
    by_cases h2 : pyStrip ((dget b_texts bp).getD "") = ""
    · rw [if_pos h2]
      exact ⟨hb, fun d hd => Or.inl hd⟩
    · rw [if_neg h2]
      rcases hbl : best_loop score T ig a_texts acc.a_info acc.used_a_matches
          ((dget b_texts bp).getD "")
          ((dget acc.b_info bp).getD {}).width
          ((dget acc.b_info bp).getD {}).height a_images (none, 0) with
        ⟨aopt, s⟩
      cases aopt with
      | none =>
          simp only [hbl]
          exact ⟨hb, fun d hd => Or.inl hd⟩
      | some ap =>
          simp only [hbl]
          by_cases h3 : ap ≠ "" ∧ T ≤ s
          · rw [if_pos h3]
            constructor
            · rw [dget_dset_ne _ _ _ _ hne]
              exact hb
            · intro d hd
              rcases List.mem_append.mp hd with hd | hd
              · exact Or.inl hd
              · right
                have : d = ⟨ap, bp, s⟩ := by simpa using hd
                rw [this]
                exact fun hh => hne hh.symm
          · rw [if_neg h3]
            exact ⟨hb, fun d hd => Or.inl hd⟩

theorem match_loop_keeps_matched :
    ∀ (l : List String) (acc : MatchAcc) (b : String) (bi : BInfo),
    dget acc.b_info b = some bi → bi.matched = true →
    dget (match_loop score T ig a_images a_texts b_texts l acc).b_info b =
      some bi ∧
    ∀ d ∈ (match_loop score T ig a_images a_texts b_texts l acc).decisions,
      d ∈ acc.decisions ∨ d.b_path ≠ b
  | [], _, _, _, hb, _ => ⟨hb, fun _ hd => Or.inl hd⟩
  | bp :: rest, acc, b, bi, hb, hm => by
      obtain ⟨hb', hd'⟩ := match_step_keeps_matched score T ig a_images
        a_texts b_texts acc bp b bi hb hm
      obtain ⟨hb'', hd''⟩ := match_loop_keeps_matched rest
        (match_step score T ig a_images a_texts b_texts acc bp) b bi hb' hm
      refine ⟨hb'', fun d hd => ?_⟩
      rcases hd'' d hd with h | h
      · exact hd' d h
      · exact Or.inr h

/-- The two threshold invariants of one pass: every recorded decision and
every newly matched record carries a similarity that reached the threshold,
and newly matched records always store a reference id. -/
theorem match_step_threshold (b0 : Dict BInfo) (acc : MatchAcc)
    (bp : String)
    (hdec : ∀ d ∈ acc.decisions, T ≤ d.similarity)
    (hrec : ∀ b bi', dget acc.b_info b = some bi' → bi'.matched = true →
      dget b0 b = some bi' ∨
        (T ≤ bi'.similarity ∧ bi'.matched_a_path.isSome = true)) :
    (∀ d ∈ (match_step score T ig a_images a_texts b_texts acc bp).decisions,
      T ≤ d.similarity) ∧
    (∀ b bi', dget (match_step score T ig a_images a_texts b_texts
        acc bp).b_info b = some bi' → bi'.matched = true →
      dget b0 b = some bi' ∨
        (T ≤ bi'.similarity ∧ bi'.matched_a_path.isSome = true)) := by
  rw [match_step_eq]
  by_cases h1 : ((dget acc.b_info bp).getD {}).matched = true
  · rw [if_pos h1]
    exact ⟨hdec, hrec⟩
  · rw [if_neg h1]
    by_cases h2 : pyStrip ((dget b_texts bp).getD "") = ""
    · rw [if_pos h2]
      exact ⟨hdec, hrec⟩
    · rw [if_neg h2]
      rcases hbl : best_loop score T ig a_texts acc.a_info acc.used_a_matches
          ((dget b_texts bp).getD "")
          ((dget acc.b_info bp).getD {}).width
          ((dget acc.b_info bp).getD {}).height a_images (none, 0) with
        ⟨aopt, s⟩
      cases aopt with
      | none =>
          simp only [hbl]
          exact ⟨hdec, hrec⟩
      | some ap =>
          simp only [hbl]
          by_cases h3 : ap ≠ "" ∧ T ≤ s
          · rw [if_pos h3]
            constructor
            · intro d hd
              rcases List.mem_append.mp hd with hd | hd
              · exact hdec d hd
              · have : d = ⟨ap, bp, s⟩ := by simpa using hd
                rw [this]
                exact h3.2
            · intro b bi' hb' hm'
              by_cases hbb : b = bp
              · subst hbb
                rw [dget_dset_self] at hb'
                right
                rw [← Option.some.injEq] at hb'
                have : bi' = matchAcceptUpdate ((dget acc.b_info b).getD {})
                    ap s (pyStem ap ++ pySuffix b) := by
                  simpa using hb'.symm
                rw [this]
                exact ⟨h3.2, rfl⟩
              · rw [dget_dset_ne _ _ _ _ hbb] at hb'
                exact hrec b bi' hb' hm'
          · rw [if_neg h3]
            exact ⟨hdec, hrec⟩

theorem match_loop_threshold (b0 : Dict BInfo) :
    ∀ (l : List String) (acc : MatchAcc),
    (∀ d ∈ acc.decisions, T ≤ d.similarity) →
    (∀ b bi', dget acc.b_info b = some bi' → bi'.matched = true →
      dget b0 b = some bi' ∨
        (T ≤ bi'.similarity ∧ bi'.matched_a_path.isSome = true)) →
    (∀ d ∈ (match_loop score T ig a_images a_texts b_texts l acc).decisions,
      T ≤ d.similarity) ∧
    (∀ b bi', dget (match_loop score T ig a_images a_texts b_texts
        l acc).b_info b = some bi' → bi'.matched = true →
      dget b0 b = some bi' ∨
        (T ≤ bi'.similarity ∧ bi'.matched_a_path.isSome = true))
  | [], _, hdec, hrec => ⟨hdec, hrec⟩
  | bp :: rest, acc, hdec, hrec => by
      obtain ⟨hdec', hrec'⟩ := match_step_threshold score T ig a_images
        a_texts b_texts b0 acc bp hdec hrec
      exact match_loop_threshold b0 rest _ hdec' hrec'

theorem refEligible_not_used {a_info : Dict AInfo} {u : List String}
    {bw bh : Nat} {a : String}
    (h : refEligible a_texts a_info u ig bw bh a = true) :
    u.contains a = false := by
  by_cases hc : u.contains a = true
  · unfold refEligible at h
    rw [if_pos hc] at h
    cases h
  · simpa using hc

/-- One pass never hands the same reference to two candidates: the decision
list's reference paths stay duplicate-free, and each recorded reference is in
the pass-local used set. -/
theorem match_step_refs (acc : MatchAcc) (bp : String)
    (hnd : (acc.decisions.map MatchDecision.a_path).Nodup)
    (hmem : ∀ d ∈ acc.decisions, d.a_path ∈ acc.used_a_matches) :
    ((match_step score T ig a_images a_texts b_texts
        acc bp).decisions.map MatchDecision.a_path).Nodup ∧
    ∀ d ∈ (match_step score T ig a_images a_texts b_texts acc bp).decisions,
      d.a_path ∈ (match_step score T ig a_images a_texts b_texts
        acc bp).used_a_matches := by
  rw [match_step_eq]
  by_cases h1 : ((dget acc.b_info bp).getD {}).matched = true
  · rw [if_pos h1]
    exact ⟨hnd, hmem⟩
  · rw [if_neg h1]
    by_cases h2 : pyStrip ((dget b_texts bp).getD "") = ""
    · rw [if_pos h2]
      exact ⟨hnd, hmem⟩
    · rw [if_neg h2]
      rcases hbl : best_loop score T ig a_texts acc.a_info acc.used_a_matches
          ((dget b_texts bp).getD "")
          ((dget acc.b_info bp).getD {}).width
          ((dget acc.b_info bp).getD {}).height a_images (none, 0) with
        ⟨aopt, s⟩
      cases aopt with
      | none =>
          simp only [hbl]
          exact ⟨hnd, hmem⟩
      | some ap =>
          simp only [hbl]
          by_cases h3 : ap ≠ "" ∧ T ≤ s
          · rw [if_pos h3]
            have hap : ap ∉ acc.used_a_matches := by
              rcases best_loop_origin score T ig a_texts acc.a_info
                  acc.used_a_matches ((dget b_texts bp).getD "")
                  ((dget acc.b_info bp).getD {}).width
                  ((dget acc.b_info bp).getD {}).height a_images (none, 0)
                  ap s hbl with h0 | h0
              · exact absurd (congrArg Prod.fst h0) (by simp)
              · intro hin
                have := refEligible_not_used ig a_texts h0.2.1
                simp at this
                exact this hin
            constructor
            · simp only [List.map_append, List.map_cons, List.map_nil]
              rw [List.nodup_append]
              refine ⟨hnd, List.nodup_singleton _, ?_⟩
              intro x hx hy
              have hxap : x = ap := by simpa using hy
              subst hxap
              rcases List.mem_map.mp hx with ⟨d, hd, hdx⟩
              exact hap (hdx ▸ hmem d hd)
            · intro d hd
              rcases List.mem_append.mp hd with hd | hd
              · exact List.mem_append_left _ (hmem d hd)
              · have : d = ⟨ap, bp, s⟩ := by simpa using hd
                rw [this]
                exact List.mem_append_right _ (by simp)
          · rw [if_neg h3]
            exact ⟨hnd, hmem⟩

theorem match_loop_refs :
    ∀ (l : List String) (acc : MatchAcc),
    (acc.decisions.map MatchDecision.a_path).Nodup →
    (∀ d ∈ acc.decisions, d.a_path ∈ acc.used_a_matches) →
    ((match_loop score T ig a_images a_texts b_texts
        l acc).decisions.map MatchDecision.a_path).Nodup ∧
    ∀ d ∈ (match_loop score T ig a_images a_texts b_texts l acc).decisions,
      d.a_path ∈ (match_loop score T ig a_images a_texts b_texts
        l acc).used_a_matches
  | [], _, hnd, hmem => ⟨hnd, hmem⟩
  | bp :: rest, acc, hnd, hmem => by
      obtain ⟨hnd', hmem'⟩ := match_step_refs score T ig a_images a_texts
        b_texts acc bp hnd hmem
      exact match_loop_refs rest _ hnd' hmem'

end PassLemmas

/-! ### Rename-engine lemmas -/

theorem nodup_dset_dpop {β : Type} {d : Dict β} (k k' : String) (v : β)
    (h : (dkeys d).Nodup) : (dkeys (dset (dpop d k) k' v)).Nodup :=
  dkeys_dset_nodup _ _ (dkeys_dpop_nodup _ h)

/-- Evicting one holder keeps the record keys (current paths) duplicate-free:
the repository is a dict keyed by path, and rekeying goes through
`pop` / assignment. -/
theorem releaseStep_nodup (ctx : RenameCtx) (b_path new_name : String)
    (acc : RenameAcc) (entry : String × BInfo)
    (h : (dkeys acc.st.group_b_info).Nodup) :
    (dkeys (releaseStep ctx b_path new_name acc
      entry).st.group_b_info).Nodup := by
  unfold releaseStep
  dsimp only
  split
  · exact h
  split
  · exact h
  split
  · exact h
  split <;> split <;> first | exact h | exact nodup_dset_dpop _ _ _ h

theorem release_loop_nodup (ctx : RenameCtx) (b_path new_name : String) :
    ∀ (l : List (String × BInfo)) (acc : RenameAcc),
    (dkeys acc.st.group_b_info).Nodup →
    (dkeys (release_loop ctx b_path new_name acc l).st.group_b_info).Nodup
  | [], _, h => h
  | e :: rest, acc, h =>
      release_loop_nodup ctx b_path new_name rest _
        (releaseStep_nodup ctx b_path new_name acc e h)

theorem applyStep_nodup (ctx : RenameCtx) (acc : RenameAcc)
    (item : String × BInfo) (h : (dkeys acc.st.group_b_info).Nodup) :
    (dkeys (applyStep ctx acc item).st.group_b_info).Nodup := by
  have h1 := release_loop_nodup ctx item.1
    (item.2.new_name.getD (basenameOf item.1)) acc.st.group_b_info acc h
  unfold applyStep
  dsimp only
  split
  · split
    · exact h1
    · split
      · exact nodup_dset_dpop _ _ _ h1
      · exact h1
  · exact h1

theorem apply_loop_nodup (ctx : RenameCtx) :
    ∀ (l : List (String × BInfo)) (acc : RenameAcc),
    (dkeys acc.st.group_b_info).Nodup →
    (dkeys (apply_loop ctx acc l).st.group_b_info).Nodup
  | [], _, h => h
  | item :: rest, acc, h =>
      apply_loop_nodup ctx rest _ (applyStep_nodup ctx acc item h)

/-- A full rename batch keeps the candidate records' current paths pairwise
distinct. -/
theorem apply_matched_renames_nodup (ctx : RenameCtx) (st : AppState)
    (h : (dkeys st.group_b_info).Nodup) :
    (dkeys (apply_matched_renames ctx st).st.group_b_info).Nodup :=
  apply_loop_nodup ctx _ _ h

/-! ### Decimal counters and the collision search

The suffix loops disambiguate names with the decimal counter embedded in the
candidate name.  Distinct counters give distinct names (decimal rendering is
injective), so among `fs.length + 1` successive candidates one is always free:
the collision search never returns an occupied path other than its own. -/

/-- Numeric value of a decimal digit character. -/
def decDigitVal (c : Char) : Nat := c.toNat - 48

/-- Value of a big-endian decimal digit string. -/
def decodeDec (cs : List Char) : Nat :=
  cs.foldl (fun acc c => 10 * acc + decDigitVal c) 0

theorem decDigitVal_digitChar (m : Nat) (h : m < 10) :
    decDigitVal (Nat.digitChar m) = m := by
  interval_cases m <;> rfl

theorem decodeDec_foldl_shift (cs : List Char) :
    ∀ a : Nat, cs.foldl (fun acc c => 10 * acc + decDigitVal c) a =
      a * 10 ^ cs.length + decodeDec cs := by
  induction cs with
  | nil => intro a; simp [decodeDec]
  | cons c t ih =>
      intro a
      have hl : List.foldl (fun acc c => 10 * acc + decDigitVal c) a (c :: t) =
          (10 * a + decDigitVal c) * 10 ^ t.length + decodeDec t := by
        show List.foldl _ (10 * a + decDigitVal c) t = _
        exact ih _
      have hr : decodeDec (c :: t) =
          decDigitVal c * 10 ^ t.length + decodeDec t := by
        show List.foldl _ (10 * 0 + decDigitVal c) t = _
        rw [ih (10 * 0 + decDigitVal c)]
        ring
      rw [hl, hr, List.length_cons]
      ring

theorem decodeDec_toDigitsCore :
    ∀ (fuel n : Nat) (ds : List Char), n < 10 ^ fuel →
    decodeDec (Nat.toDigitsCore 10 fuel n ds) =
      n * 10 ^ ds.length + decodeDec ds
  | 0, n, ds, h => by
      have hn : n = 0 := by simpa using h
      subst hn
      simp [Nat.toDigitsCore]
  | fuel + 1, n, ds, h => by
      have hstep : Nat.toDigitsCore 10 (fuel + 1) n ds =
          if n / 10 = 0 then Nat.digitChar (n % 10) :: ds
          else Nat.toDigitsCore 10 fuel (n / 10)
            (Nat.digitChar (n % 10) :: ds) := rfl
      rw [hstep]
      have hmod : n % 10 < 10 := Nat.mod_lt _ (by norm_num)
      have hcons : decodeDec (Nat.digitChar (n % 10) :: ds) =
          (n % 10) * 10 ^ ds.length + decodeDec ds := by
        show List.foldl _ (10 * 0 + decDigitVal (Nat.digitChar (n % 10))) ds = _
        rw [decodeDec_foldl_shift ds, decDigitVal_digitChar _ hmod]
        ring
      by_cases hdiv : n / 10 = 0
      · rw [if_pos hdiv, hcons]
        have hmn : n % 10 = n := by omega
        rw [hmn]
      · rw [if_neg hdiv]
        have hlt : n / 10 < 10 ^ fuel := by
          have h10 : (0:Nat) < 10 := by norm_num
          rw [Nat.div_lt_iff_lt_mul h10]
          calc n < 10 ^ (fuel + 1) := h
            _ = 10 ^ fuel * 10 := by rw [pow_succ]
        rw [decodeDec_toDigitsCore fuel (n / 10) _ hlt]
        rw [hcons, List.length_cons]
        have hdm : 10 * (n / 10) + n % 10 = n := Nat.div_add_mod n 10
        calc n / 10 * 10 ^ (ds.length + 1) +
              ((n % 10) * 10 ^ ds.length + decodeDec ds)
            = (10 * (n / 10) + n % 10) * 10 ^ ds.length + decodeDec ds := by
              ring
          _ = n * 10 ^ ds.length + decodeDec ds := by rw [hdm]

theorem decodeDec_toDigits (n : Nat) : decodeDec (Nat.toDigits 10 n) = n := by
  have h1 : n < 10 ^ (n + 1) := by
    calc n < 2 ^ n := Nat.lt_two_pow n
      _ ≤ 10 ^ n := Nat.pow_le_pow_left (by norm_num) n
      _ ≤ 10 ^ (n + 1) := Nat.pow_le_pow_right (by norm_num) (Nat.le_succ n)
  have h2 := decodeDec_toDigitsCore (n + 1) n [] h1
  simpa [Nat.toDigits, decodeDec] using h2

/-- The decimal rendering of the spinning counter is injective. -/
theorem nat_repr_inj {m n : Nat} (h : Nat.repr m = Nat.repr n) : m = n := by
  have hd : Nat.toDigits 10 m = Nat.toDigits 10 n := by
    have h2 := congrArg String.data h
    simpa [Nat.repr, List.asString] using h2
  calc m = decodeDec (Nat.toDigits 10 m) := (decodeDec_toDigits m).symm
    _ = decodeDec (Nat.toDigits 10 n) := by rw [hd]
    _ = n := decodeDec_toDigits n

theorem string_data_injective {s t : String} (h : s.data = t.data) : s = t := by
  cases s
  cases t
  exact congrArg String.mk h

theorem string_append_left_cancel {a b c : String} (h : a ++ b = a ++ c) :
    b = c := by
  apply string_data_injective
  have h2 := congrArg String.data h
  simp only [String.data_append] at h2
  exact List.append_cancel_left h2

theorem string_append_right_cancel {a b c : String} (h : a ++ c = b ++ c) :
    a = b := by
  apply string_data_injective
  have h2 := congrArg String.data h
  simp only [String.data_append] at h2
  exact List.append_cancel_right h2

/-- A duplicate-free list contained in `l` is no longer than `l`. -/
theorem nodup_subset_length {d l : List String} (hnd : d.Nodup)
    (hsub : ∀ x ∈ d, x ∈ l) : d.length ≤ l.length := by
  calc d.length = d.toFinset.card := (List.toFinset_card_of_nodup hnd).symm
    _ ≤ l.toFinset.card := Finset.card_le_card (fun x hx => by
        rw [List.mem_toFinset] at hx ⊢
        exact hsub x hx)
    _ ≤ l.length := l.toFinset_card_le

/-- The candidate name tried at counter `k` by the collision loop. -/
def collideCand (dir stem0 ext0 : String) (k : Nat) : String :=
  joinPath dir (stem0 ++ "_" ++ Nat.repr k ++ ext0)

theorem joinPath_right_inj {d x y : String} (h : joinPath d x = joinPath d y) :
    x = y := by
  unfold joinPath at h
  by_cases hd : d = ""
  · rw [if_pos hd, if_pos hd] at h
    exact h
  · rw [if_neg hd, if_neg hd] at h
    exact string_append_left_cancel h

theorem collideCand_inj {dir s e : String} {i j : Nat}
    (h : collideCand dir s e i = collideCand dir s e j) : i = j := by
  have h1 := joinPath_right_inj h
  have h2 := string_append_right_cancel h1
  have h3 := string_append_left_cancel h2
  exact nat_repr_inj h3

/-- Pigeonhole: among any `fs.length + 1` consecutive candidate names, one
is not on the filesystem. -/
theorem exists_free_collideCand (fs : List String) (dir s e : String)
    (k : Nat) :
    ∃ j, j < fs.length + 1 ∧ collideCand dir s e (k + j) ∉ fs := by
  by_contra hall
  push_neg at hall
  have hnd : ((List.range (fs.length + 1)).map
      (fun j => collideCand dir s e (k + j))).Nodup := by
    refine List.Nodup.map ?_ (List.nodup_range _)
    intro a b hab
    have := collideCand_inj hab
    omega
  have hsub : ∀ x ∈ (List.range (fs.length + 1)).map
      (fun j => collideCand dir s e (k + j)), x ∈ fs := by
    intro x hx
    rcases List.mem_map.mp hx with ⟨j, hj, rfl⟩
    exact hall j (List.mem_range.mp hj)
  have hlen := nodup_subset_length hnd hsub
  simp at hlen

/-- If some candidate within the remaining fuel is free, the collision loop
never returns an occupied name other than `self`. -/
theorem collide_go_exit (fs : List String) (self dir stem0 ext0 : String) :
    ∀ (fuel k : Nat) (p : String),
    (∃ j, j < fuel ∧ collideCand dir stem0 ext0 (k + j) ∉ fs) →
    ¬ (collide_go fs self dir stem0 ext0 fuel p k ∈ fs ∧
       collide_go fs self dir stem0 ext0 fuel p k ≠ self)
  | 0, k, p, hex => by
      rcases hex with ⟨j, hj, _⟩
      omega
  | fuel + 1, k, p, hex => by
      by_cases hp : fs.contains p = true ∧ p ≠ self
      · have hgo : collide_go fs self dir stem0 ext0 (fuel + 1) p k =
            collide_go fs self dir stem0 ext0 fuel
              (joinPath dir (stem0 ++ "_" ++ Nat.repr k ++ ext0)) (k + 1) := by
          rw [collide_go.eq_def]
          dsimp only
          rw [if_pos hp]
        rw [hgo]
        by_cases hk : collideCand dir stem0 ext0 k ∈ fs
        · apply collide_go_exit fs self dir stem0 ext0 fuel (k + 1) _
          rcases hex with ⟨j, hj, hfree⟩
          cases j with
          | zero => exact absurd (by simpa using hk) (by simpa using hfree)
          | succ j' =>
              refine ⟨j', by omega, ?_⟩
              have harith : k + 1 + j' = k + (j' + 1) := by omega
              rw [harith]
              exact hfree
        · have hneg : ¬ (fs.contains
              (joinPath dir (stem0 ++ "_" ++ Nat.repr k ++ ext0)) = true ∧
              joinPath dir (stem0 ++ "_" ++ Nat.repr k ++ ext0) ≠ self) :=
            fun hcontra => hk (by simpa using hcontra.1)
          have hgo2 : collide_go fs self dir stem0 ext0 fuel
              (joinPath dir (stem0 ++ "_" ++ Nat.repr k ++ ext0)) (k + 1) =
              joinPath dir (stem0 ++ "_" ++ Nat.repr k ++ ext0) := by
            rw [collide_go.eq_def]
            dsimp only
            rw [if_neg hneg]
          rw [hgo2]
          intro hc
          exact hk (by simpa using hc.1)
      · have hgo : collide_go fs self dir stem0 ext0 (fuel + 1) p k = p := by
          rw [collide_go.eq_def]
          dsimp only
          rw [if_neg hp]
        rw [hgo]
        intro hc
        exact hp ⟨by simpa using hc.1, hc.2⟩

/-- The collision search of the suffix loops always returns a path that is
free on the filesystem, or the file's own current path: `os.rename` is never
pointed at an existing foreign path. -/
theorem collisionSearch_exit (fs : List String)
    (self dir stem0 ext0 start : String) :
    collisionSearch fs self dir stem0 ext0 start ∉ fs ∨
    collisionSearch fs self dir stem0 ext0 start = self := by
  have h := collide_go_exit fs self dir stem0 ext0 (fs.length + 1) 1 start
    (exists_free_collideCand fs dir stem0 ext0 1)
  unfold collisionSearch
  by_cases h1 : collide_go fs self dir stem0 ext0 (fs.length + 1) start 1 ∈ fs
  · by_cases h2 : collide_go fs self dir stem0 ext0 (fs.length + 1) start 1 =
        self
    · exact Or.inr h2
    · exact absurd ⟨h1, h2⟩ h
  · exact Or.inl h1

/-! ### Frame lemmas: the rename engine never writes the A-side records -/

theorem releaseStep_a_info (ctx : RenameCtx) (b_path new_name : String)
    (acc : RenameAcc) (entry : String × BInfo) :
    (releaseStep ctx b_path new_name acc entry).st.group_a_info =
      acc.st.group_a_info := by
  unfold releaseStep
  dsimp only
  split
  · rfl
  split
  · rfl
  split
  · rfl
  split <;> split <;> rfl

theorem release_loop_a_info (ctx : RenameCtx) (b_path new_name : String) :
    ∀ (l : List (String × BInfo)) (acc : RenameAcc),
    (release_loop ctx b_path new_name acc l).st.group_a_info =
      acc.st.group_a_info
  | [], _ => rfl
  | e :: rest, acc =>
      (release_loop_a_info ctx b_path new_name rest
          (releaseStep ctx b_path new_name acc e)).trans
        (releaseStep_a_info ctx b_path new_name acc e)

theorem applyStep_a_info (ctx : RenameCtx) (acc : RenameAcc)
    (item : String × BInfo) :
    (applyStep ctx acc item).st.group_a_info = acc.st.group_a_info := by
  have h1 := release_loop_a_info ctx item.1
    (item.2.new_name.getD (basenameOf item.1)) acc.st.group_b_info acc
  unfold applyStep
  dsimp only
  split
  · split
    · exact h1
    · split
      · exact h1
      · exact h1
  · exact h1

theorem apply_loop_a_info (ctx : RenameCtx) :
    ∀ (l : List (String × BInfo)) (acc : RenameAcc),
    (apply_loop ctx acc l).st.group_a_info = acc.st.group_a_info
  | [], _ => rfl
  | item :: rest, acc =>
      (apply_loop_a_info ctx rest (applyStep ctx acc item)).trans
        (applyStep_a_info ctx acc item)

/-- A full rename batch leaves the A-side records untouched (the `used`
flags were already written by the matching pass). -/
theorem apply_matched_renames_a_info (ctx : RenameCtx) (st : AppState) :
    (apply_matched_renames ctx st).st.group_a_info = st.group_a_info :=
  apply_loop_a_info ctx _ _

theorem oldClaimStep_a_info (ctx : RenameCtx) (a_path new_path : String)
    (acc : RenameAcc) (entry : String × BInfo) :
    (oldClaimStep ctx a_path new_path acc entry).st.group_a_info =
      acc.st.group_a_info := by
  unfold oldClaimStep
  dsimp only
  split
  · rfl
  split
  · rfl
  split
  · rfl
  split
  · split <;> rfl
  · rfl

theorem oldClaim_loop_a_info (ctx : RenameCtx) (a_path new_path : String) :
    ∀ (l : List (String × BInfo)) (acc : RenameAcc),
    (oldClaim_loop ctx a_path new_path acc l).st.group_a_info =
      acc.st.group_a_info
  | [], _ => rfl
  | e :: rest, acc =>
      (oldClaim_loop_a_info ctx a_path new_path rest
          (oldClaimStep ctx a_path new_path acc e)).trans
        (oldClaimStep_a_info ctx a_path new_path acc e)

/-! ### The matching pass never resets a used flag -/

theorem match_step_used (score : String → String → ℚ) (T : ℚ) (ig : Bool)
    (a_images : List String) (a_texts b_texts : Dict String)
    (acc : MatchAcc) (bp p : String)
    (h : (dget acc.a_info p).map AInfo.used = some true) :
    (dget (match_step score T ig a_images a_texts b_texts
      acc bp).a_info p).map AInfo.used = some true := by
  rw [match_step_eq]
  by_cases h1 : ((dget acc.b_info bp).getD {}).matched = true
  · rw [if_pos h1]
    exact h
  · rw [if_neg h1]
    by_cases h2 : pyStrip ((dget b_texts bp).getD "") = ""
    · rw [if_pos h2]
      exact h
    · rw [if_neg h2]
      rcases hbl : best_loop score T ig a_texts acc.a_info acc.used_a_matches
          ((dget b_texts bp).getD "")
          ((dget acc.b_info bp).getD {}).width
          ((dget acc.b_info bp).getD {}).height a_images (none, 0) with
        ⟨aopt, s⟩
      cases aopt with
      | none =>
          simp only [hbl]
          exact h
      | some ap =>
          simp only [hbl]
          by_cases h3 : ap ≠ "" ∧ T ≤ s
          · rw [if_pos h3]
            dsimp only
            by_cases hpa : p = ap
            · subst hpa
              rw [dget_dset_self]
              rfl
            · rw [dget_dset_ne _ _ _ _ hpa]
              exact h
          · rw [if_neg h3]
            exact h

theorem match_loop_used (score : String → String → ℚ) (T : ℚ) (ig : Bool)
    (a_images : List String) (a_texts b_texts : Dict String) :
    ∀ (l : List String) (acc : MatchAcc) (p : String),
    (dget acc.a_info p).map AInfo.used = some true →
    (dget (match_loop score T ig a_images a_texts b_texts
      l acc).a_info p).map AInfo.used = some true
  | [], _, _, h => h
  | bp :: rest, acc, p, h =>
      match_loop_used score T ig a_images a_texts b_texts rest _ p
        (match_step_used score T ig a_images a_texts b_texts acc bp p h)

/-- A reference whose `used` flag is already true keeps it through a whole
matching pass: acceptance only ever sets `used := true`. -/
theorem auto_match_pass_used (score : String → String → ℚ) (T : ℚ)
    (ig : Bool) (st : AppState) (p : String)
    (h : (dget st.group_a_info p).map AInfo.used = some true) :
    (dget (auto_match_pass score T ig st).1.group_a_info p).map
      AInfo.used = some true := by
  unfold auto_match_pass
  dsimp only
  exact match_loop_used score T ig st.group_a_images st.group_a_texts
    st.group_b_texts st.group_b_images
    { a_info := st.group_a_info, b_info := st.group_b_info,
      used_a_matches := [], decisions := [] } p h

/-! ### The claim-release loop preserves the freshly renamed record -/

/-- Rekeying some other record to a path that is free on the filesystem (or
is that record's own path) cannot disturb the record at `np` nor remove `np`
from the filesystem. -/
theorem renameAway_preserves (st : AppState) (other alt np : String)
    (v u : BInfo) (hfs : np ∈ st.fs)
    (hget : dget st.group_b_info np = some v) (hne : other ≠ np)
    (halt : alt ∉ st.fs ∨ alt = other) :
    np ∈ (if st.fs.contains other = true ∧ other ≠ alt
          then osRename st.fs other alt else st.fs) ∧
    dget (dset (dpop st.group_b_info other) alt u) np = some v := by
  have haltne : alt ≠ np := by
    rcases halt with h | h
    · intro he
      rw [he] at h
      exact h hfs
    · rw [h]
      exact hne
  constructor
  · split
    · unfold osRename
      refine List.mem_append_left _ ?_
      exact (List.mem_erase_of_ne (Ne.symm hne)).mpr hfs
    · exact hfs
  · rw [dget_dset_ne _ _ _ _ (Ne.symm haltne)]
    rw [dget_dpop_ne _ _ _ (Ne.symm hne)]
    exact hget

theorem oldClaimStep_preserves (ctx : RenameCtx) (a_path np : String)
    (acc : RenameAcc) (entry : String × BInfo) (v : BInfo)
    (hfs : np ∈ acc.st.fs)
    (hget : dget acc.st.group_b_info np = some v) :
    np ∈ (oldClaimStep ctx a_path np acc entry).st.fs ∧
    dget (oldClaimStep ctx a_path np acc entry).st.group_b_info np =
      some v := by
  unfold oldClaimStep
  dsimp only
  by_cases h1 : entry.1 = np
  · rw [if_pos h1]
    exact ⟨hfs, hget⟩
  · rw [if_neg h1]
    by_cases h2 : entry.2.matched = false
    · rw [if_pos h2]
      exact ⟨hfs, hget⟩
    · rw [if_neg h2]
      by_cases h3 : entry.2.matched_a_path ≠ some a_path
      · rw [if_pos h3]
        exact ⟨hfs, hget⟩
      · rw [if_neg h3]
        by_cases h4 : entry.2.renamed = true
        · rw [if_pos h4]
          split
          · exact ⟨hfs, hget⟩
          · exact renameAway_preserves acc.st entry.1 _ np v _ hfs hget h1
              (collisionSearch_exit _ _ _ _ _ _)
        · rw [if_neg h4]
          refine ⟨hfs, ?_⟩
          rw [dget_dset_ne _ _ _ _ (fun he => h1 he.symm)]
          exact hget

theorem oldClaim_loop_preserves (ctx : RenameCtx) (a_path np : String) :
    ∀ (l : List (String × BInfo)) (acc : RenameAcc) (v : BInfo),
    np ∈ acc.st.fs → dget acc.st.group_b_info np = some v →
    np ∈ (oldClaim_loop ctx a_path np acc l).st.fs ∧
    dget (oldClaim_loop ctx a_path np acc l).st.group_b_info np = some v
  | [], _, _, hfs, hget => ⟨hfs, hget⟩
  | e :: rest, acc, v, hfs, hget => by
      obtain ⟨h1, h2⟩ := oldClaimStep_preserves ctx a_path np acc e v hfs hget
      exact oldClaim_loop_preserves ctx a_path np rest _ v h1 h2

/-! ### Concrete instances used by the closed theorems

`eqScore` is one admissible instance of the external similarity scorer
parameter.  On every text pair the concrete states below actually evaluate
(identical non-empty strings), it agrees with both scorers of the source,
`fuzz.ratio(a, b) / 100.0` and `difflib.SequenceMatcher(None, a, b).ratio()`,
which yield `1` on identical non-empty strings. -/

def eqScore : String → String → ℚ := fun a b => if a = b then 1 else 0

/-- Oracle run in which no `os.rename` fails; the token stream is concrete. -/
def noErrCtx : RenameCtx :=
  { err := fun _ _ => false, tok := fun n => Nat.repr (100000 + n) }

/-- One reference `/a/r.jpg` and two candidates `/d/x.jpg`, `/d/y.png`, all
with the same recognized text. -/
def stTwoPass : AppState :=
  { fs := ["/a/r.jpg", "/d/x.jpg", "/d/y.png"]
    group_a_images := ["/a/r.jpg"]
    group_a_texts := [("/a/r.jpg", "ABC")]
    group_a_info := [("/a/r.jpg", { text := "ABC" })]
    group_b_images := ["/d/x.jpg", "/d/y.png"]
    group_b_texts := [("/d/x.jpg", "ABC"), ("/d/y.png", "ABC")]
    group_b_info := [("/d/x.jpg", newBInfo "/d/x.jpg"),
                     ("/d/y.png", newBInfo "/d/y.png")] }

/-- State after the first matching pass on `stTwoPass`. -/
def stMid : AppState := (auto_match_pass eqScore 1 true stTwoPass).1

/-- State after the first pass and its rename batch. -/
def stAfter1 : AppState := (apply_matched_renames noErrCtx stMid).st

/-- State after a second pass and batch on the unchanged collections. -/
def stFinal : AppState :=
  (apply_matched_renames noErrCtx
    (auto_match_pass eqScore 1 true stAfter1).1).st

/-- Scenario D of the specification: geometry constraint enabled, reference
100×100 and candidate 200×200, identical text. -/
def stScenD : AppState :=
  { fs := ["/a/r.jpg", "/d/x.jpg"]
    group_a_images := ["/a/r.jpg"]
    group_a_texts := [("/a/r.jpg", "ABC")]
    group_a_info := [("/a/r.jpg", { text := "ABC", width := 100, height := 100 })]
    group_b_images := ["/d/x.jpg"]
    group_b_texts := [("/d/x.jpg", "ABC")]
    group_b_info := [("/d/x.jpg",
      { newBInfo "/d/x.jpg" with width := 200, height := 200 })] }

/-- A candidate whose current file name already equals the computed target
name for reference `/a/r.jpg`. -/
def stSameName : AppState :=
  { fs := ["/a/r.jpg", "/d/r.jpg"]
    group_a_images := ["/a/r.jpg"]
    group_a_texts := [("/a/r.jpg", "ABC")]
    group_a_info := [("/a/r.jpg", { text := "ABC" })]
    group_b_images := ["/d/r.jpg"]
    group_b_texts := [("/d/r.jpg", "ABC")]
    group_b_info := [("/d/r.jpg", newBInfo "/d/r.jpg")] }

/-- The same situation as a pending batch item: matched, target name equal
to the current name, not yet renamed. -/
def stSameNamePending : AppState :=
  { stSameName with
      group_b_info := [("/d/r.jpg",
        { newBInfo "/d/r.jpg" with
            matched := true
            similarity := 1
            matched_a_path := some "/a/r.jpg"
            new_name := some "r.jpg" })]
      group_a_info := [("/a/r.jpg", { text := "ABC", used := true })] }

/-- Two pending items; the rename oracle fails exactly on the first one. -/
def errFirstCtx : RenameCtx :=
  { err := fun src _ => src = "/d/x.jpg", tok := fun n => Nat.repr (100000 + n) }

def stBatchErr : AppState :=
  { fs := ["/d/x.jpg", "/d/y.png"]
    group_b_images := ["/d/x.jpg", "/d/y.png"]
    group_b_texts := [("/d/x.jpg", "ABC"), ("/d/y.png", "DEF")]
    group_b_info :=
      [("/d/x.jpg", { newBInfo "/d/x.jpg" with
          matched := true
          matched_a_path := some "/a/r1.jpg"
          new_name := some "r1.jpg" }),
       ("/d/y.png", { newBInfo "/d/y.png" with
          matched := true
          matched_a_path := some "/a/r2.jpg"
          new_name := some "r2.png" })] }

/-- One reference `/a/r.png` and three candidates in three directories, two
of them sharing the base name `x.jpg`; used to drive successive manual
matches against the same reference. -/
def stCross : AppState :=
  { fs := ["/a/r.png", "/d1/x.jpg", "/d2/x.jpg", "/d3/z.jpg"]
    group_a_images := ["/a/r.png"]
    group_a_texts := [("/a/r.png", "ABC")]
    group_a_info := [("/a/r.png", { text := "ABC" })]
    group_b_images := ["/d1/x.jpg", "/d2/x.jpg", "/d3/z.jpg"]
    group_b_texts := [("/d1/x.jpg", "ABC"), ("/d2/x.jpg", "ABC"),
                      ("/d3/z.jpg", "ABC")]
    group_b_info := [("/d1/x.jpg", newBInfo "/d1/x.jpg"),
                     ("/d2/x.jpg", newBInfo "/d2/x.jpg"),
                     ("/d3/z.jpg", newBInfo "/d3/z.jpg")] }

/-- `stCross` after manually matching `/d1/x.jpg` to the reference. -/
def stCross1 : AppState :=
  (manual_match noErrCtx stCross "/a/r.png" "/d1/x.jpg").st

/-- `stCross1` after manually matching `/d2/x.jpg` to the same reference:
the first claimant is evicted and restored to its original name. -/
def stCross2 : AppState :=
  (manual_match noErrCtx stCross1 "/a/r.png" "/d2/x.jpg").st

/-- `stCross2` after manually matching `/d3/z.jpg` to the same reference:
the second claimant is evicted and restored to its original name too. -/
def stCross3 : AppState :=
  (manual_match noErrCtx stCross2 "/a/r.png" "/d3/z.jpg").st

/-! ### Claim C4: the geometry constraint -/

/-- C4.  With the geometry constraint enabled (`ignore_size_limit = false`),
a pair with all four dimensions known is excluded exactly when the
dimensions differ; a pair with any unknown (zero) dimension is never
excluded by the constraint; and in Scenario D (100×100 reference, 200×200
candidate, identical text, similarity 1 ≥ threshold) the pass produces no
decision and the candidate stays unmatched — while the same state with the
constraint ignored does produce a decision. -/
theorem c4_geometry_constraint :
    (∀ aw ah bw bh : Nat, geometryExcluded false aw ah bw bh = true ↔
      (aw ≠ 0 ∧ ah ≠ 0 ∧ bw ≠ 0 ∧ bh ≠ 0 ∧ (aw ≠ bw ∨ ah ≠ bh))) ∧
    (∀ (ig : Bool) (aw ah bw bh : Nat),
      aw = 0 ∨ ah = 0 ∨ bw = 0 ∨ bh = 0 →
      geometryExcluded ig aw ah bw bh = false) ∧
    ((auto_match_pass eqScore 1 false stScenD).2 = [] ∧
      (dget (auto_match_pass eqScore 1 false stScenD).1.group_b_info
        "/d/x.jpg").map BInfo.matched = some false ∧
      (auto_match_pass eqScore 1 true stScenD).2 ≠ []) := by
  refine ⟨?_, ?_, by decide⟩
  · intro aw ah bw bh
    unfold geometryExcluded
    by_cases hz : aw ≠ 0 ∧ ah ≠ 0 ∧ bw ≠ 0 ∧ bh ≠ 0
    · rw [if_neg (show ¬ (false = true) from by simp), if_pos hz]
      simp [hz.1, hz.2.1, hz.2.2.1, hz.2.2.2]
    · rw [if_neg (show ¬ (false = true) from by simp), if_neg hz]
      constructor
      · intro hc
        exact absurd hc Bool.false_ne_true
      · intro hc
        exact absurd ⟨hc.1, hc.2.1, hc.2.2.1, hc.2.2.2.1⟩ hz
  · intro ig aw ah bw bh h
    unfold geometryExcluded
    cases ig with
    | true => rw [if_pos rfl]
    | false =>
        rw [if_neg (show ¬ (false = true) from by simp)]
        have hz : ¬ (aw ≠ 0 ∧ ah ≠ 0 ∧ bw ≠ 0 ∧ bh ≠ 0) := by
          rcases h with h | h | h | h <;> simp [h]
        rw [if_neg hz]

/-- Witness for C4: a pair with an unknown dimension passes the constraint. -/
theorem c4_geometry_constraint_witness :
    geometryExcluded false 0 5 7 7 = false :=
  c4_geometry_constraint.2.1 false 0 5 7 7 (Or.inl rfl)

/-! ### Claim C5: releasing references on record destruction -/

theorem dget_clear_map : ∀ (l : Dict AInfo) (p : String) (ai : AInfo),
    dget (l.map (fun q => if q.2.used then (q.1, { q.2 with used := false })
      else q)) p = some ai → ai.used = false
  | [], p, ai, h => by simp [dget] at h
  | (k, v) :: rest, p, ai, h => by
      rw [List.map_cons] at h
      dsimp only at h
      by_cases hu : v.used = true
      · rw [if_pos hu] at h
        rw [dget] at h
        by_cases hq : k = p
        · rw [if_pos hq] at h
          have := Option.some.inj h
          rw [← this]
        · rw [if_neg hq] at h
          exact dget_clear_map rest p ai h
      · rw [if_neg hu] at h
        rw [dget] at h
        by_cases hq : k = p
        · rw [if_pos hq] at h
          have := Option.some.inj h
          rw [← this]
          exact Bool.not_eq_true v.used ▸ hu
        · rw [if_neg hq] at h
          exact dget_clear_map rest p ai h

/-- C5 counterexample.  In `stAfter1` the candidate `/d/r.jpg` has claimed
reference `/a/r.jpg` (`used = true`); deleting that candidate record with
`on_b_card_delete` destroys the record but never resets the reference's
`used` flag to `false` as the claim states — here the re-match triggered by
the deletion immediately hands the still-used reference to the remaining
candidate `/d/y.png` (renaming it to `/d/r.png`), and `used` stays `true`
throughout. -/
theorem c5_counterexample :
    (dget stAfter1.group_b_info "/d/r.jpg").map
        (fun i => (i.matched, i.matched_a_path)) =
      some (true, some "/a/r.jpg") ∧
    dget (on_b_card_delete eqScore 1 true noErrCtx stAfter1
      "/d/r.jpg").group_b_info "/d/r.jpg" = none ∧
    (dget (on_b_card_delete eqScore 1 true noErrCtx stAfter1
        "/d/r.jpg").group_a_info "/a/r.jpg").map AInfo.used = some true ∧
    (dget (on_b_card_delete eqScore 1 true noErrCtx stAfter1
        "/d/r.jpg").group_b_info "/d/r.png").map
      (fun i => (i.matched_a_path, i.renamed)) =
        some (some "/a/r.jpg", true) := by
  decide

/-- C5 amended.  A full collection clear (`clear_b_images`) releases every
reference: afterwards every A-side record has `used = false` and the
candidate repository is empty.  Explicit single-record removal
(`on_b_card_delete`) destroys the record but never releases a claimed
reference: the removal itself does not write the A-side records, and the
re-match it triggers only ever sets `used := true`, so every reference with
`used = true` before the deletion still has `used = true` afterwards. -/
theorem c5_amended (st : AppState) :
    (∀ p ai, dget (clear_b_images st).group_a_info p = some ai →
      ai.used = false) ∧
    (clear_b_images st).group_b_info = [] ∧
    (∀ (score : String → String → ℚ) (T : ℚ) (ig : Bool) (ctx : RenameCtx)
        (img p : String),
      (dget st.group_a_info p).map AInfo.used = some true →
      (dget (on_b_card_delete score T ig ctx st img).group_a_info p).map
        AInfo.used = some true) := by
  refine ⟨?_, rfl, ?_⟩
  · intro p ai h
    exact dget_clear_map st.group_a_info p ai h
  · intro score T ig ctx img p h
    unfold on_b_card_delete trigger_auto_match_if_ready
    split
    · unfold auto_match_and_rename
      split
      · exact h
      · rw [apply_matched_renames_a_info]
        exact auto_match_pass_used score T ig _ p h
    · exact h

/-- Witness for C5: after clearing the two-pass scenario's end state the
previously used reference is released, while deleting the single claimant
record keeps it used. -/
theorem c5_amended_witness :
    (dget (clear_b_images stAfter1).group_a_info "/a/r.jpg").map
        AInfo.used = some false ∧
    (dget (on_b_card_delete eqScore 1 true noErrCtx stAfter1
        "/d/r.jpg").group_a_info "/a/r.jpg").map AInfo.used = some true := by
  constructor
  · have h := (c5_amended stAfter1).1 "/a/r.jpg"
    rcases hv : dget (clear_b_images stAfter1).group_a_info "/a/r.jpg" with
      _ | ai
    · exact absurd hv (by decide)
    · simp only [Option.map_some']
      rw [h ai hv]
  · exact (c5_amended stAfter1).2.2 eqScore 1 true noErrCtx "/d/r.jpg"
      "/a/r.jpg" (by decide)

/-! ### Claim C6: originalName write discipline -/

/-- C6 counterexample.  `original_name` is already set when the record is
created by `add_images_to_group_b` — before any rename has happened
(`renamed = false`) — so it is not "set at the first rename". -/
theorem c6_counterexample :
    (dget (add_images_to_group_b { fs := ["/d/x.jpg"] }
        ["/d/x.jpg"]).group_b_info "/d/x.jpg").map
      (fun i => (i.original_name, i.renamed)) =
    some (some "x.jpg", false) := by
  decide

/-- C6 amended.  `original_name` is captured at record creation; the rename
engine's success updates set it only when it is absent (the first rename of
a record that lacks it), and no update of the matcher or rename engine —
acceptance, rename success, eviction, manual success, or unmatching —
overwrites a present `original_name`. -/
theorem c6_amended :
    (∀ img, (newBInfo img).original_name = some (basenameOf img)) ∧
    (∀ bi b np, bi.original_name.isSome = true →
      (renameSuccessUpdate bi b np).original_name = bi.original_name) ∧
    (∀ bi b np, bi.original_name = none →
      (renameSuccessUpdate bi b np).original_name =
        some (basenameOf b)) ∧
    (∀ bi a b np, bi.original_name.isSome = true →
      (manualSuccessUpdate bi a b np).original_name = bi.original_name) ∧
    (∀ bi a b np, bi.original_name = none →
      (manualSuccessUpdate bi a b np).original_name =
        some (basenameOf b)) ∧
    (∀ bi rp, (releaseUpdate bi rp).original_name = bi.original_name) ∧
    (∀ bi p, (unmatchUpdate bi p).original_name = bi.original_name) ∧
    (∀ bi a s n, (matchAcceptUpdate bi a s n).original_name =
      bi.original_name) := by
  refine ⟨fun img => rfl, ?_, ?_, ?_, ?_, fun bi rp => rfl, fun bi p => rfl,
    fun bi a s n => rfl⟩
  · intro bi b np h
    unfold renameSuccessUpdate
    rw [if_pos h]
  · intro bi b np h
    unfold renameSuccessUpdate
    rw [if_neg (by simp [h])]
  · intro bi a b np h
    unfold manualSuccessUpdate
    rw [if_pos h]
  · intro bi a b np h
    unfold manualSuccessUpdate
    rw [if_neg (by simp [h])]

/-- Witness for C6: a record with a present `original_name` keeps it through
a rename success update. -/
theorem c6_amended_witness :
    (renameSuccessUpdate (newBInfo "/d/x.jpg") "/d/x.jpg"
      "/d/r.jpg").original_name = some "x.jpg" := by
  rw [c6_amended.2.1 (newBInfo "/d/x.jpg") "/d/x.jpg" "/d/r.jpg" (by decide)]
  decide

/-! ### Claim C1: re-running the Matcher -/

/-- C1 counterexample.  On `stTwoPass` the first pass matches only
`/d/x.jpg`; running the identical pass again on the resulting state — same
images, texts, threshold and geometry setting — produces a new decision,
pairing the previously unmatched `/d/y.png` with reference `/a/r.jpg` even
though that reference already has `used = true`: the matcher consults only
the pass-local `used_a_matches` set, never the persistent `used` flag. -/
theorem c1_counterexample :
    (auto_match_pass eqScore 1 true stTwoPass).2 =
      [{ a_path := "/a/r.jpg", b_path := "/d/x.jpg", similarity := 1 }] ∧
    (dget stMid.group_a_info "/a/r.jpg").map AInfo.used = some true ∧
    (dget stMid.group_b_info "/d/y.png").map BInfo.matched = some false ∧
    (auto_match_pass eqScore 1 true stMid).2 =
      [{ a_path := "/a/r.jpg", b_path := "/d/y.png", similarity := 1 }] ∧
    (auto_match_pass eqScore 1 true stAfter1).2 =
      [{ a_path := "/a/r.jpg", b_path := "/d/y.png", similarity := 1 }] := by
  decide

/-- C1 amended.  Re-running the Matcher never touches or re-decides a
candidate that is already matched — previously matched candidates are
skipped — so the second pass leaves all first-pass decisions intact; but a
candidate left unmatched by the first pass can still be paired in the second
pass, even with a reference whose `used` flag is already true, because
reference eligibility checks only the pass-local used set. -/
theorem c1_amended (score : String → String → ℚ) (T : ℚ) (ig : Bool)
    (st : AppState) (b : String) (bi : BInfo)
    (hb : dget st.group_b_info b = some bi) (hm : bi.matched = true) :
    dget (auto_match_pass score T ig st).1.group_b_info b = some bi ∧
    ∀ d ∈ (auto_match_pass score T ig st).2, d.b_path ≠ b := by
  obtain ⟨h1, h2⟩ := match_loop_keeps_matched score T ig st.group_a_images
    st.group_a_texts st.group_b_texts st.group_b_images
    { a_info := st.group_a_info, b_info := st.group_b_info,
      used_a_matches := [], decisions := [] } b bi hb hm
  refine ⟨h1, fun d hd => ?_⟩
  rcases h2 d hd with h0 | h0
  · exact absurd h0 (List.not_mem_nil d)
  · exact h0

/-- Witness for C1: the candidate matched by the first pass on `stTwoPass`
is untouched by the second pass. -/
theorem c1_amended_witness :
    dget (auto_match_pass eqScore 1 true stMid).1.group_b_info
      "/d/x.jpg" = some
        { text := "", width := 0, height := 0, matched := true,
          similarity := 1, matched_a_path := some "/a/r.jpg",
          new_name := some "r.jpg", original_name := some "x.jpg",
          renamed := false } :=
  (c1_amended eqScore 1 true stMid "/d/x.jpg" _ (by decide) rfl).1

/-! ### Claim C7: decisions reach the threshold -/

/-- C7.  Every decision of a single pass has `similarity ≥ T`, and every
candidate newly matched by the pass stores a similarity that reached `T`
together with the chosen reference's id; a candidate for which no eligible
reference reaches `T` therefore stays unmatched. -/
theorem c7_threshold (score : String → String → ℚ) (T : ℚ) (ig : Bool)
    (st : AppState) :
    (∀ d ∈ (auto_match_pass score T ig st).2, T ≤ d.similarity) ∧
    (∀ b bi bi', dget st.group_b_info b = some bi → bi.matched = false →
      dget (auto_match_pass score T ig st).1.group_b_info b = some bi' →
      bi'.matched = true →
      T ≤ bi'.similarity ∧ bi'.matched_a_path.isSome = true) := by
  obtain ⟨h1, h2⟩ := match_loop_threshold score T ig st.group_a_images
    st.group_a_texts st.group_b_texts st.group_b_info st.group_b_images
    { a_info := st.group_a_info, b_info := st.group_b_info,
      used_a_matches := [], decisions := [] }
    (by intro d hd; exact absurd hd (List.not_mem_nil d))
    (by intro b bi' hb _; exact Or.inl hb)
  refine ⟨h1, fun b bi bi' hb hbm hb' hm' => ?_⟩
  rcases h2 b bi' hb' hm' with h0 | h0
  · rw [hb] at h0
    have : bi = bi' := Option.some.inj h0
    rw [this] at hbm
    rw [hm'] at hbm
    cases hbm
  · exact h0

/-- Witness for C7: the single decision of the first pass on `stTwoPass`
reaches the threshold 1. -/
theorem c7_threshold_witness :
    (1 : ℚ) ≤ (MatchDecision.mk "/a/r.jpg" "/d/x.jpg" 1).similarity :=
  (c7_threshold eqScore 1 true stTwoPass).1 _ (by decide)

/-! ### Claim C8: no reference claimed twice in one pass -/

/-- C8.  Within a single pass, no reference appears in two accepted
decisions: acceptance adds the reference to the pass-local used set, which
later candidates' eligibility excludes, so the decision list's reference
paths are pairwise distinct. -/
theorem c8_refs_distinct (score : String → String → ℚ) (T : ℚ) (ig : Bool)
    (st : AppState) :
    ((auto_match_pass score T ig st).2.map MatchDecision.a_path).Nodup := by
  obtain ⟨h1, _⟩ := match_loop_refs score T ig st.group_a_images
    st.group_a_texts st.group_b_texts st.group_b_images
    { a_info := st.group_a_info, b_info := st.group_b_info,
      used_a_matches := [], decisions := [] }
    (by simp)
    (by intro d hd; exact absurd hd (List.not_mem_nil d))
  exact h1

/-! ### Claim C3: post-batch uniqueness -/

/-- C3 counterexample.  Both halves of the claimed post-batch invariant
fail.  After the second pass and second rename batch on `stTwoPass`, the
reference `/a/r.jpg` is claimed by two candidates with `renamed = true`
(`/d/r.jpg` and `/d/r.png`, whose extensions differ so no eviction fires):
"each reference is claimed by at most one renamed candidate" fails across
batches.  And after three successive manual matches against `/a/r.png`,
the records at `/d1/x.jpg` and `/d2/x.jpg` — both with `renamed = true`
and both present on the filesystem — share the current file name `x.jpg`:
the eviction compares base names only against the forced target, and each
restore checks freeness of the full path in its own directory, so two
evicted-and-restored records in different directories end up with the same
name.  A full rename batch on that state completes as a no-op and leaves
the violation in place. -/
theorem c3_counterexample :
    (dget stFinal.group_b_info "/d/r.jpg").map
        (fun i => (i.renamed, i.matched_a_path)) =
      some (true, some "/a/r.jpg") ∧
    (dget stFinal.group_b_info "/d/r.png").map
        (fun i => (i.renamed, i.matched_a_path)) =
      some (true, some "/a/r.jpg") ∧
    (dget stCross3.group_b_info "/d1/x.jpg").map BInfo.renamed =
      some true ∧
    (dget stCross3.group_b_info "/d2/x.jpg").map BInfo.renamed =
      some true ∧
    basenameOf "/d1/x.jpg" = basenameOf "/d2/x.jpg" ∧
    "/d1/x.jpg" ∈ stCross3.fs ∧ "/d2/x.jpg" ∈ stCross3.fs ∧
    (apply_matched_renames noErrCtx stCross3).st = stCross3 := by
  decide

/-- C3 amended.  What the engine actually guarantees is uniqueness of full
paths, not of file names.  After any rename batch the candidate records'
current paths stay pairwise distinct (the repository is keyed by current
path and every rekey goes through pop-then-assign); the collision search
behind every physical rename returns a target that is free on the
filesystem or is the file's own path, so suffixing always re-establishes
path-level freeness; and evicting a managed holder of the target name moves
it to a restore path that is likewise free or its own, clearing its claim
(`matched = false`, reference id dropped).  Uniqueness of base names among
`renamed = true` records does not follow and is in fact false (see the
counterexample), as is "each reference claimed by at most one renamed
candidate" across batches. -/
theorem c3_amended (ctx : RenameCtx) (st : AppState)
    (h : (dkeys st.group_b_info).Nodup) :
    (dkeys (apply_matched_renames ctx st).st.group_b_info).Nodup ∧
    (∀ (fs : List String) (self dir stem0 ext0 start : String),
      collisionSearch fs self dir stem0 ext0 start ∉ fs ∨
      collisionSearch fs self dir stem0 ext0 start = self) ∧
    (∀ (b_path new_name : String) (acc : RenameAcc) (e : String × BInfo)
        (rd : String × Nat),
      rd = (if acc.st.fs.contains (joinPath (dirnameOf e.1)
              (e.2.original_name.getD (basenameOf e.1))) = true ∧
            joinPath (dirnameOf e.1)
              (e.2.original_name.getD (basenameOf e.1)) ≠ e.1 then
          (collisionSearch acc.st.fs e.1 (dirnameOf e.1)
            (pyStem (joinPath (dirnameOf e.1)
              ((pyStemSuffix (e.2.original_name.getD (basenameOf e.1))).1 ++
                "_restored_" ++ ctx.tok acc.draws ++
                (pyStemSuffix (e.2.original_name.getD
                  (basenameOf e.1))).2)))
            (pyStemSuffix (e.2.original_name.getD (basenameOf e.1))).2
            (joinPath (dirnameOf e.1)
              ((pyStemSuffix (e.2.original_name.getD (basenameOf e.1))).1 ++
                "_restored_" ++ ctx.tok acc.draws ++
                (pyStemSuffix (e.2.original_name.getD
                  (basenameOf e.1))).2)),
           acc.draws + 1)
        else (joinPath (dirnameOf e.1)
          (e.2.original_name.getD (basenameOf e.1)), acc.draws)) →
      e.1 ≠ b_path → e.2.renamed = true → basenameOf e.1 = new_name →
      ¬ ((acc.st.fs.contains e.1 = true ∧ e.1 ≠ rd.1) ∧
          ctx.err e.1 rd.1 = true) →
      releaseStep ctx b_path new_name acc e =
        { acc with
            draws := rd.2
            st := { acc.st with
                      fs := if acc.st.fs.contains e.1 = true ∧ e.1 ≠ rd.1
                            then osRename acc.st.fs e.1 rd.1 else acc.st.fs
                      group_b_images :=
                        listReplace acc.st.group_b_images e.1 rd.1
                      group_b_texts := drekey acc.st.group_b_texts e.1 rd.1
                      group_b_info := dset (dpop acc.st.group_b_info e.1)
                        rd.1 (releaseUpdate
                          ((dget acc.st.group_b_info e.1).getD {}) rd.1) } } ∧
      (rd.1 ∉ acc.st.fs ∨ rd.1 = e.1) ∧
      (releaseUpdate ((dget acc.st.group_b_info e.1).getD {})
        rd.1).matched = false ∧
      (releaseUpdate ((dget acc.st.group_b_info e.1).getD {})
        rd.1).matched_a_path = none) := by
  refine ⟨apply_matched_renames_nodup ctx st h, ?_, ?_⟩
  · intro fs self dir stem0 ext0 start
    exact collisionSearch_exit fs self dir stem0 ext0 start
  · intro b_path new_name acc e rd hrd h1 h2 h3 hnoerr
    refine ⟨?_, ?_, rfl, rfl⟩
    · unfold releaseStep
      dsimp only
      rw [if_neg (show ¬ e.1 = b_path from h1)]
      rw [if_neg (show ¬ e.2.renamed = false from by simp [h2])]
      rw [if_neg (show ¬ basenameOf e.1 ≠ new_name from fun hh => hh h3)]
      rw [← hrd]
      rw [if_neg hnoerr]
    · by_cases hc : acc.st.fs.contains (joinPath (dirnameOf e.1)
          (e.2.original_name.getD (basenameOf e.1))) = true ∧
          joinPath (dirnameOf e.1)
            (e.2.original_name.getD (basenameOf e.1)) ≠ e.1
      · rw [if_pos hc] at hrd
        rw [hrd]
        exact collisionSearch_exit _ _ _ _ _ _
      · rw [if_neg hc] at hrd
        rw [hrd]
        by_cases hmem : joinPath (dirnameOf e.1)
            (e.2.original_name.getD (basenameOf e.1)) ∈ acc.st.fs
        · right
          by_contra hne0
          exact hc ⟨by simpa using hmem, hne0⟩
        · left
          exact hmem

/-- Witness for C3: the records of the first batch's result have pairwise
distinct current paths, and the concrete eviction of `/d1/r.jpg` during the
second manual match of the cross-directory scenario restores it to a path
that is free on the filesystem. -/
theorem c3_amended_witness :
    (dkeys (apply_matched_renames noErrCtx stMid).st.group_b_info).Nodup ∧
    ("/d1/x.jpg" ∉ stCross1.fs ∨ "/d1/x.jpg" = "/d1/r.jpg") :=
  ⟨(c3_amended noErrCtx stMid (by decide)).1,
   ((c3_amended noErrCtx stMid (by decide)).2.2 "/d2/x.jpg" "r.jpg"
      { st := stCross1 }
      ("/d1/r.jpg", { newBInfo "/d1/x.jpg" with
          matched := true
          matched_a_path := some "/a/r.png"
          new_name := some "r.jpg"
          renamed := true })
      ("/d1/x.jpg", 0) (by decide) (by decide) (by decide) (by decide)
      (by decide)).2.1⟩

/-! ### Claim C10: deterministic tie-break -/

/-- C10.  When the inner loop returns a winner, that winner is eligible,
its similarity is the returned score and reaches the threshold, and it is
the earliest occurrence in the reference iteration order attaining that
score: every eligible reference strictly before it that reaches the
threshold scores strictly less, because the running best is replaced only on
strictly greater similarity. -/
theorem c10_earliest_max (score : String → String → ℚ) (T : ℚ) (ig : Bool)
    (a_texts : Dict String) (a_info : Dict AInfo) (used : List String)
    (b_text : String) (bw bh : Nat) (l : List String) (a : String) (s : ℚ)
    (h : best_loop score T ig a_texts a_info used b_text bw bh l
      (none, 0) = (some a, s)) :
    refEligible a_texts a_info used ig bw bh a = true ∧
    refScore score a_texts b_text a = s ∧ T ≤ s ∧
    ∃ l1 l2, l = l1 ++ a :: l2 ∧ a ∉ l1 ∧
      ∀ a' ∈ l1, refEligible a_texts a_info used ig bw bh a' = true →
        T ≤ refScore score a_texts b_text a' →
        refScore score a_texts b_text a' < s := by
  rcases best_loop_origin score T ig a_texts a_info used b_text bw bh l
    (none, 0) a s h with h0 | h0
  · exact absurd (congrArg Prod.fst h0) (by simp)
  obtain ⟨hmem, helig, hsc, hTs, _⟩ := h0
  refine ⟨helig, hsc, hTs, ?_⟩
  obtain ⟨l1, l2, hl, hnl1⟩ := exists_first_occurrence hmem
  refine ⟨l1, l2, hl, hnl1, ?_⟩
  intro a' ha' helig' hT'
  rw [hl, best_loop_append score T ig a_texts a_info used b_text bw bh
    l1 (a :: l2) (none, 0)] at h
  have hlt : (best_loop score T ig a_texts a_info used b_text bw bh l1
      (none, 0)).2 < s := by
    rcases best_loop_origin score T ig a_texts a_info used b_text bw bh
      (a :: l2) _ a s h with h1 | h1
    · rcases best_loop_origin score T ig a_texts a_info used b_text bw bh
        l1 (none, 0) a s h1 with h2 | h2
      · exact absurd (congrArg Prod.fst h2) (by simp)
      · exact absurd h2.1 hnl1
    · exact h1.2.2.2.2
  exact lt_of_le_of_lt (best_loop_bound score T ig a_texts a_info used
    b_text bw bh l1 (none, 0) a' ha' helig' hT') hlt

/-- Witness for C10: two references tie at similarity 1; the loop picks the
first. -/
theorem c10_earliest_max_witness :
    refEligible [("/a/r1.jpg", "ABC"), ("/a/r2.jpg", "ABC")] [] [] true 0 0
      "/a/r1.jpg" = true ∧
    refScore eqScore [("/a/r1.jpg", "ABC"), ("/a/r2.jpg", "ABC")] "ABC"
      "/a/r1.jpg" = 1 ∧ (1 : ℚ) ≤ 1 ∧
    ∃ l1 l2, ["/a/r1.jpg", "/a/r2.jpg"] = l1 ++ "/a/r1.jpg" :: l2 ∧
      "/a/r1.jpg" ∉ l1 ∧
      ∀ a' ∈ l1, refEligible [("/a/r1.jpg", "ABC"), ("/a/r2.jpg", "ABC")]
          [] [] true 0 0 a' = true →
        (1 : ℚ) ≤ refScore eqScore
          [("/a/r1.jpg", "ABC"), ("/a/r2.jpg", "ABC")] "ABC" a' →
        refScore eqScore [("/a/r1.jpg", "ABC"), ("/a/r2.jpg", "ABC")]
          "ABC" a' < 1 :=
  c10_earliest_max eqScore 1 true
    [("/a/r1.jpg", "ABC"), ("/a/r2.jpg", "ABC")] [] [] "ABC" 0 0
    ["/a/r1.jpg", "/a/r2.jpg"] "/a/r1.jpg" 1 (by decide)

/-! ### Claim C2: effects of an accepted decision -/

/-- C2 counterexample.  When the candidate's current file name already
equals the computed target name, both engine entry points skip the item
outright.  `manual_match` changes nothing at all — in particular it does
not set `matched`, does not store the reference id, and does not mark the
reference used; `apply_matched_renames` leaves the record `matched = true`,
`renamed = false` and counts neither success nor failure. -/
theorem c2_counterexample :
    manual_match noErrCtx stSameName "/a/r.jpg" "/d/r.jpg" =
      { st := stSameName } ∧
    (dget stSameName.group_b_info "/d/r.jpg").map
        (fun i => (i.matched, i.renamed)) = some (false, false) ∧
    (dget stSameName.group_a_info "/a/r.jpg").map AInfo.used =
      some false ∧
    (apply_matched_renames noErrCtx stSameNamePending).st =
      stSameNamePending ∧
    (apply_matched_renames noErrCtx stSameNamePending).success_count = 0 ∧
    (dget (apply_matched_renames noErrCtx
        stSameNamePending).st.group_b_info "/d/r.jpg").map
      (fun i => (i.renamed, i.matched)) = some (false, true) := by
  decide

theorem applyStep_success_eq (ctx : RenameCtx) (acc : RenameAcc)
    (item : String × BInfo) (acc1 : RenameAcc)
    (hacc1 : acc1 = release_loop ctx item.1
      (item.2.new_name.getD (basenameOf item.1)) acc acc.st.group_b_info)
    (np : String)
    (hnp : np = collisionSearch acc1.st.fs item.1 (dirnameOf item.1)
      (pyStem (joinPath (dirnameOf item.1)
        (item.2.new_name.getD (basenameOf item.1))))
      (pySuffix (joinPath (dirnameOf item.1)
        (item.2.new_name.getD (basenameOf item.1))))
      (joinPath (dirnameOf item.1)
        (item.2.new_name.getD (basenameOf item.1))))
    (hne : np ≠ item.1) (herr : ctx.err item.1 np = false)
    (info : BInfo)
    (hinfo : dget acc1.st.group_b_info item.1 = some info) :
    applyStep ctx acc item =
      { acc1 with
          success_count := acc1.success_count + 1
          st := { acc1.st with
                    fs := osRename acc1.st.fs item.1 np
                    group_b_images :=
                      listReplace acc1.st.group_b_images item.1 np
                    group_b_texts := drekey acc1.st.group_b_texts item.1 np
                    group_b_info := dset (dpop acc1.st.group_b_info item.1)
                      np (renameSuccessUpdate info item.1 np) } } := by
  unfold applyStep
  dsimp only
  rw [← hacc1, ← hnp]
  rw [if_pos hne]
  rw [if_neg (show ¬ ctx.err item.1 np = true from by simp [herr])]
  rw [hinfo]

theorem manual_match_eq (ctx : RenameCtx) (st : AppState)
    (a_path b_path : String) (acc1 : RenameAcc)
    (hacc1 : acc1 = release_loop ctx b_path
      (pyStem a_path ++ pySuffix b_path) { st := st } st.group_b_info)
    (np : String)
    (hnp : np = collisionSearch acc1.st.fs b_path (dirnameOf b_path)
      (pyStem (joinPath (dirnameOf b_path)
        (pyStem a_path ++ pySuffix b_path)))
      (pySuffix (joinPath (dirnameOf b_path)
        (pyStem a_path ++ pySuffix b_path)))
      (joinPath (dirnameOf b_path) (pyStem a_path ++ pySuffix b_path)))
    (hne : np ≠ b_path) (herr : ctx.err b_path np = false)
    (bi : BInfo) (hb : dget acc1.st.group_b_info b_path = some bi) :
    manual_match ctx st a_path b_path =
      oldClaim_loop ctx a_path np
        { acc1 with st := { acc1.st with
            fs := osRename acc1.st.fs b_path np
            group_b_images := listReplace acc1.st.group_b_images b_path np
            group_b_texts := drekey acc1.st.group_b_texts b_path np
            group_b_info := dset (dpop acc1.st.group_b_info b_path) np
              (manualSuccessUpdate bi a_path b_path np)
            group_a_info := dset acc1.st.group_a_info a_path
              { (dget acc1.st.group_a_info a_path).getD {} with
                  used := true } } }
        (dset (dpop acc1.st.group_b_info b_path) np
          (manualSuccessUpdate bi a_path b_path np)) := by
  unfold manual_match
  dsimp only
  rw [← hacc1, ← hnp]
  rw [if_pos hne]
  rw [if_neg (show ¬ ctx.err b_path np = true from by simp [herr])]
  rw [hb]

/-- C2 amended.  For an accepted decision whose final target path — computed
after the eviction loop by the collision search — differs from the
candidate's current path, and whose own rename raises no I/O error, both
engine entry points perform the physical rename and rekey the record to the
new path.  The batch step of `apply_matched_renames` sets `renamed = true`,
records the new display name, preserves `matched` and the stored reference
id, counts a success, puts the new path on the filesystem, and leaves the
A-side records untouched — the reference's `used = true` was already written
at acceptance time by the matcher, not by the batch.  `manual_match`
additionally sets `matched = true`, stores the forced reference's id, marks
that reference `used = true`, and its subsequent claim-release loop never
disturbs the freshly renamed record.  When the target path equals the
current path the engine instead skips the item entirely (see the
counterexample). -/
theorem c2_amended :
    (∀ (ctx : RenameCtx) (acc : RenameAcc) (item : String × BInfo)
        (acc1 : RenameAcc),
      acc1 = release_loop ctx item.1
        (item.2.new_name.getD (basenameOf item.1)) acc
        acc.st.group_b_info →
      ∀ np, np = collisionSearch acc1.st.fs item.1 (dirnameOf item.1)
        (pyStem (joinPath (dirnameOf item.1)
          (item.2.new_name.getD (basenameOf item.1))))
        (pySuffix (joinPath (dirnameOf item.1)
          (item.2.new_name.getD (basenameOf item.1))))
        (joinPath (dirnameOf item.1)
          (item.2.new_name.getD (basenameOf item.1))) →
      np ≠ item.1 → ctx.err item.1 np = false →
      ∀ info, dget acc1.st.group_b_info item.1 = some info →
      applyStep ctx acc item =
        { acc1 with
            success_count := acc1.success_count + 1
            st := { acc1.st with
                      fs := osRename acc1.st.fs item.1 np
                      group_b_images :=
                        listReplace acc1.st.group_b_images item.1 np
                      group_b_texts := drekey acc1.st.group_b_texts item.1 np
                      group_b_info := dset (dpop acc1.st.group_b_info item.1)
                        np (renameSuccessUpdate info item.1 np) } } ∧
      dget (applyStep ctx acc item).st.group_b_info np =
        some (renameSuccessUpdate info item.1 np) ∧
      (renameSuccessUpdate info item.1 np).renamed = true ∧
      (renameSuccessUpdate info item.1 np).new_name =
        some (basenameOf np) ∧
      (renameSuccessUpdate info item.1 np).matched = info.matched ∧
      (renameSuccessUpdate info item.1 np).matched_a_path =
        info.matched_a_path ∧
      np ∈ (applyStep ctx acc item).st.fs ∧
      (applyStep ctx acc item).st.group_a_info = acc.st.group_a_info ∧
      (applyStep ctx acc item).success_count = acc1.success_count + 1) ∧
    (∀ (ctx : RenameCtx) (st : AppState) (a_path b_path : String)
        (acc1 : RenameAcc),
      acc1 = release_loop ctx b_path (pyStem a_path ++ pySuffix b_path)
        { st := st } st.group_b_info →
      ∀ np, np = collisionSearch acc1.st.fs b_path (dirnameOf b_path)
        (pyStem (joinPath (dirnameOf b_path)
          (pyStem a_path ++ pySuffix b_path)))
        (pySuffix (joinPath (dirnameOf b_path)
          (pyStem a_path ++ pySuffix b_path)))
        (joinPath (dirnameOf b_path) (pyStem a_path ++ pySuffix b_path)) →
      np ≠ b_path → ctx.err b_path np = false →
      ∀ bi, dget acc1.st.group_b_info b_path = some bi →
      dget (manual_match ctx st a_path b_path).st.group_b_info np =
        some (manualSuccessUpdate bi a_path b_path np) ∧
      (manualSuccessUpdate bi a_path b_path np).matched = true ∧
      (manualSuccessUpdate bi a_path b_path np).renamed = true ∧
      (manualSuccessUpdate bi a_path b_path np).matched_a_path =
        some a_path ∧
      (manualSuccessUpdate bi a_path b_path np).new_name =
        some (basenameOf np) ∧
      dget (manual_match ctx st a_path b_path).st.group_a_info a_path =
        some { (dget acc1.st.group_a_info a_path).getD {} with
                 used := true } ∧
      np ∈ (manual_match ctx st a_path b_path).st.fs) := by
  constructor
  · intro ctx acc item acc1 hacc1 np hnp hne herr info hinfo
    have heq := applyStep_success_eq ctx acc item acc1 hacc1 np hnp hne
      herr info hinfo
    have hmm : (renameSuccessUpdate info item.1 np).matched =
        info.matched := by
      unfold renameSuccessUpdate
      dsimp only
      split <;> rfl
    have hma : (renameSuccessUpdate info item.1 np).matched_a_path =
        info.matched_a_path := by
      unfold renameSuccessUpdate
      dsimp only
      split <;> rfl
    refine ⟨heq, ?_, rfl, rfl, hmm, hma, ?_, ?_, ?_⟩
    · rw [heq]
      exact dget_dset_self _ _ _
    · rw [heq]
      dsimp only
      unfold osRename
      exact List.mem_append_right _ (by simp)
    · rw [heq]
      dsimp only
      rw [hacc1]
      exact release_loop_a_info ctx item.1
        (item.2.new_name.getD (basenameOf item.1)) acc.st.group_b_info acc
    · rw [heq]
  · intro ctx st a_path b_path acc1 hacc1 np hnp hne herr bi hb
    have heq := manual_match_eq ctx st a_path b_path acc1 hacc1 np hnp hne
      herr bi hb
    have hpres := oldClaim_loop_preserves ctx a_path np
      (dset (dpop acc1.st.group_b_info b_path) np
        (manualSuccessUpdate bi a_path b_path np))
      { acc1 with st := { acc1.st with
          fs := osRename acc1.st.fs b_path np
          group_b_images := listReplace acc1.st.group_b_images b_path np
          group_b_texts := drekey acc1.st.group_b_texts b_path np
          group_b_info := dset (dpop acc1.st.group_b_info b_path) np
            (manualSuccessUpdate bi a_path b_path np)
          group_a_info := dset acc1.st.group_a_info a_path
            { (dget acc1.st.group_a_info a_path).getD {} with
                used := true } } }
      (manualSuccessUpdate bi a_path b_path np)
      (by
        dsimp only
        unfold osRename
        exact List.mem_append_right _ (by simp))
      (by
        dsimp only
        exact dget_dset_self _ _ _)
    refine ⟨?_, rfl, rfl, rfl, rfl, ?_, ?_⟩
    · rw [heq]
      exact hpres.2
    · rw [heq]
      rw [oldClaim_loop_a_info]
      dsimp only
      exact dget_dset_self _ _ _
    · rw [heq]
      exact hpres.1

/-- Witness for C2: on the matched state `stMid` the batch step renames
`/d/x.jpg` to `/d/r.jpg` and stores the updated record, and manually pairing
`/a/r.jpg` with `/d/x.jpg` in `stTwoPass` does the same through
`manual_match`. -/
theorem c2_amended_witness :
    dget (applyStep noErrCtx { st := stMid }
        ("/d/x.jpg", { newBInfo "/d/x.jpg" with
            matched := true
            similarity := 1
            matched_a_path := some "/a/r.jpg"
            new_name := some "r.jpg" })).st.group_b_info "/d/r.jpg" =
      some (renameSuccessUpdate
        { newBInfo "/d/x.jpg" with
            matched := true
            similarity := 1
            matched_a_path := some "/a/r.jpg"
            new_name := some "r.jpg" } "/d/x.jpg" "/d/r.jpg") ∧
    dget (manual_match noErrCtx stTwoPass "/a/r.jpg"
        "/d/x.jpg").st.group_b_info "/d/r.jpg" =
      some (manualSuccessUpdate (newBInfo "/d/x.jpg") "/a/r.jpg"
        "/d/x.jpg" "/d/r.jpg") :=
  ⟨(c2_amended.1 noErrCtx { st := stMid }
      ("/d/x.jpg", { newBInfo "/d/x.jpg" with
          matched := true
          similarity := 1
          matched_a_path := some "/a/r.jpg"
          new_name := some "r.jpg" })
      { st := stMid } (by decide) "/d/r.jpg" (by decide) (by decide)
      (by decide)
      { newBInfo "/d/x.jpg" with
          matched := true
          similarity := 1
          matched_a_path := some "/a/r.jpg"
          new_name := some "r.jpg" } (by decide)).2.1,
   (c2_amended.2 noErrCtx stTwoPass "/a/r.jpg" "/d/x.jpg"
      { st := stTwoPass } (by decide) "/d/r.jpg" (by decide) (by decide)
      (by decide) (newBInfo "/d/x.jpg") (by decide)).1⟩

/-! ### Claim C9: per-item failure isolation -/

/-- C9.  A failing `os.rename` on one batch item is caught by that item's
`except` handler: the item's own record and file are left exactly as they
were after the eviction phase — in particular the original file is not
moved — and only `error_count` is incremented; the batch loop then simply
continues with the remaining items, so no failure escapes the batch.  In
the concrete two-item batch `stBatchErr` whose first rename fails, the
first record stays pending at its original path while the second is still
renamed, and the engine reports one success and one failure. -/
theorem c9_error_isolation :
    (∀ (ctx : RenameCtx) (acc : RenameAcc) (item : String × BInfo)
        (acc1 : RenameAcc),
      acc1 = release_loop ctx item.1
        (item.2.new_name.getD (basenameOf item.1)) acc
        acc.st.group_b_info →
      ∀ np, np = collisionSearch acc1.st.fs item.1 (dirnameOf item.1)
        (pyStem (joinPath (dirnameOf item.1)
          (item.2.new_name.getD (basenameOf item.1))))
        (pySuffix (joinPath (dirnameOf item.1)
          (item.2.new_name.getD (basenameOf item.1))))
        (joinPath (dirnameOf item.1)
          (item.2.new_name.getD (basenameOf item.1))) →
      np ≠ item.1 → ctx.err item.1 np = true →
      applyStep ctx acc item =
        { acc1 with error_count := acc1.error_count + 1 }) ∧
    (∀ (ctx : RenameCtx) (acc : RenameAcc) (item : String × BInfo)
        (rest : List (String × BInfo)),
      apply_loop ctx acc (item :: rest) =
        apply_loop ctx (applyStep ctx acc item) rest) ∧
    ((apply_matched_renames errFirstCtx stBatchErr).error_count = 1 ∧
      (apply_matched_renames errFirstCtx stBatchErr).success_count = 1 ∧
      dget (apply_matched_renames errFirstCtx
          stBatchErr).st.group_b_info "/d/x.jpg" =
        some { newBInfo "/d/x.jpg" with
                 matched := true
                 matched_a_path := some "/a/r1.jpg"
                 new_name := some "r1.jpg" } ∧
      "/d/x.jpg" ∈ (apply_matched_renames errFirstCtx
        stBatchErr).st.fs ∧
      (dget (apply_matched_renames errFirstCtx
          stBatchErr).st.group_b_info "/d/r2.png").map BInfo.renamed =
        some true) := by
  refine ⟨?_, fun ctx acc item rest => rfl, by decide⟩
  intro ctx acc item acc1 hacc1 np hnp hne herr
  unfold applyStep
  dsimp only
  rw [← hacc1]
  rw [← hnp]
  rw [if_pos hne]
  rw [if_pos herr]

/-- Witness for C9: the failing first item of `stBatchErr` yields exactly
an error-count increment. -/
theorem c9_error_isolation_witness :
    applyStep errFirstCtx { st := stBatchErr }
        ("/d/x.jpg", { newBInfo "/d/x.jpg" with
            matched := true
            matched_a_path := some "/a/r1.jpg"
            new_name := some "r1.jpg" }) =
      { st := stBatchErr, error_count := 1 } :=
  c9_error_isolation.1 errFirstCtx { st := stBatchErr }
    ("/d/x.jpg", { newBInfo "/d/x.jpg" with
        matched := true
        matched_a_path := some "/a/r1.jpg"
        new_name := some "r1.jpg" })
    { st := stBatchErr } (by decide) "/d/r1.jpg" (by decide) (by decide)
    (by decide)
